import Mathlib

/-!
# Verification of the avwx-api fetch/cache/counter subsystems

Shallow embedding of the report-fetch orchestrator (`avwx_api/handle/base.py`),
the report cache (`avwx_api/cache.py`) and the delayed usage counter
(`avwx_api/counter.py`), with theorems settling the specification claims.

Conventions:
* Python `dict`s whose shape is fixed become Lean structures with `Option`
  fields (`none` = key absent); arbitrary nested report payloads become an
  inductive JSON-like tree with insertion-ordered association lists.
* HTTP status codes are plain `Nat`s.
* Python `str.format` on the literal `ERRORS` templates becomes string
  concatenation with the argument spliced where the placeholder sits.
* External I/O (network fetch, MongoDB, wall clock) is supplied by "world"
  records of oracle functions; the orchestration logic itself is translated
  line by line from the source.
-/

namespace AvwxApi

/-! ## HTTP status codes (`http.HTTPStatus`) -/

def httpOk : Nat := 200

def httpNoContent : Nat := 204

def httpBadRequest : Nat := 400

def httpInternalServerError : Nat := 500

def httpBadGateway : Nat := 502

def httpServiceUnavailable : Nat := 503

/-! ## Error templates (`handle/base.py` lines 18-31)

Each entry of the Python `ERRORS` list is a `str.format` template; the entry
becomes a Lean function splicing the format arguments where the `\x7b\x7d`
placeholders sit in the source string. -/

def ERRORS_0 (reportType errStation : String) : String :=
  "Station Lookup Error: " ++ reportType ++ " not found for " ++ errStation ++
    ". There might not be a current report in ADDS"

def ERRORS_1 (reportType : String) : String :=
  "Report Parsing Error: Could not parse " ++ reportType ++
    " report. An error report has been sent to the admin"

def ERRORS_2 (station : String) : String :=
  "Station Lookup Error: " ++ station ++
    " does not appear to be a valid station. Please contact the admin"

def ERRORS_3 (reportType errStation : String) : String :=
  "Report Lookup Error: No " ++ reportType ++ " reports were found for " ++ errStation ++
    ". Either the station doesn\x27t exist or there are no active reports"

def ERRORS_4 (reportType : String) : String :=
  "Report Lookup Error: An unknown error occurred fetch the " ++ reportType ++
    " report. An error report has been sent to the admin"

def ERRORS_5 (errSource : String) : String :=
  "Report Lookup Error: Unable to fetch report from " ++ errSource ++
    ". You might wish to use \x27?onfail=cache\x27 to return the most recent report even if it\x27s not up-to-date"

def ERRORS_6 (station : String) : String :=
  "Station Error: " ++ station ++ " does not publish reports"

def ERRORS_7 : String :=
  "Unable to fetch report. This cached data might be out of date. To return an error instead, set ?onfail=error"

def WARNINGS_0 : String :=
  "This AWOS is for advisory purposes only, not for flight planning"

/-! ## `BaseHandler._call_update` (`handle/base.py` lines 118-152)

One call of `operation()` either returns a boolean or raises; the possible
outcomes of the i-th call are supplied as a function `att : Nat → AttemptOutcome`.
`timeoutErr` models `TimeoutError` and `sourceError` models
`avwx.exceptions.SourceError`; both are swallowed by the
`with suppress(TimeoutError, avwx.exceptions.SourceError)` inside the loop.
The remaining constructors model the exception classes of the `except` arms. -/

inductive AttemptOutcome where
  | ok
  | noData
  | timeoutErr
  | sourceError
  | cancelledErr
  | connectionError (msg : String)
  | invalidRequest
  | unknownExc
  deriving DecidableEq

/-- `err_station` is either `parser.code` (a `str`) or `parser.coord.pair`
(a tuple, so `isinstance(err_station, str)` is `False`); `display` is how it
renders inside a formatted message. -/
inductive ErrStation where
  | str (s : String)
  | coordPair (s : String)
  deriving DecidableEq

def ErrStation.display : ErrStation → String
  | .str s => s
  | .coordPair s => s

def ErrStation.isStr : ErrStation → Bool
  | .str _ => true
  | .coordPair _ => false

/-- The `for _ in range(3)` loop of `_call_update`, with the surrounding
`try`/`except` arms.  Returns (`none` on success / `some (error message, code)`
on failure, number of `operation()` calls made).  `i` is the index of the next
attempt, the second `Nat` the remaining loop iterations (3 at the top call);
exhausting them runs the `for`-`else` arm (`ERRORS[5]`, 502). -/
def callUpdateLoop (reportType : String) (errStation : ErrStation) (errSource : String)
    (att : Nat → AttemptOutcome) : Nat → Nat → Option (String × Nat) × Nat
  | _, 0 => (some (ERRORS_5 errSource, httpBadGateway), 0)
  | i, remaining + 1 =>
    match att i with
    | .ok => (none, 1)
    | .noData =>
      (some ((if errStation.isStr then ERRORS_0 reportType errStation.display
              else ERRORS_3 reportType errStation.display), httpBadRequest), 1)
    | .timeoutErr =>
      let r := callUpdateLoop reportType errStation errSource att (i + 1) remaining
      (r.1, r.2 + 1)
    | .sourceError =>
      let r := callUpdateLoop reportType errStation errSource att (i + 1) remaining
      (r.1, r.2 + 1)
    | .cancelledErr => (some ("Server rebooting. Try again", httpServiceUnavailable), 1)
    | .connectionError msg => (some (msg, httpBadGateway), 1)
    | .invalidRequest => (some (ERRORS_0 reportType errStation.display, httpBadRequest), 1)
    | .unknownExc => (some (ERRORS_4 reportType, httpInternalServerError), 1)

/-- `BaseHandler._call_update`. -/
def callUpdate (reportType : String) (errStation : ErrStation) (errSource : String)
    (att : Nat → AttemptOutcome) : Option (String × Nat) × Nat :=
  callUpdateLoop reportType errStation errSource att 0 3

/-- An attempt outcome that escapes the retry loop (neither a boolean return
nor one of the two suppressed exception classes). -/
def nonRetryable : AttemptOutcome → Bool
  | .cancelledErr => true
  | .connectionError _ => true
  | .invalidRequest => true
  | .unknownExc => true
  | _ => false

/-- The `except` arm taken for each non-retryable exception class. -/
def classifyNonRetryable (reportType : String) (errStation : ErrStation) :
    AttemptOutcome → String × Nat
  | .cancelledErr => ("Server rebooting. Try again", httpServiceUnavailable)
  | .connectionError msg => (msg, httpBadGateway)
  | .invalidRequest => (ERRORS_0 reportType errStation.display, httpBadRequest)
  | _ => (ERRORS_4 reportType, httpInternalServerError)

/-- A retryable outcome: timeout or source-unavailable. -/
def retryable (a : AttemptOutcome) : Prop :=
  a = .timeoutErr ∨ a = .sourceError

lemma callUpdateLoop_count_le (reportType : String) (errStation : ErrStation)
    (errSource : String) (att : Nat → AttemptOutcome) :
    ∀ remaining i, (callUpdateLoop reportType errStation errSource att i remaining).2 ≤ remaining := by
  intro remaining
  induction remaining with
  | zero => intro i; simp [callUpdateLoop]
  | succ n ih =>
    intro i
    cases h : att i <;> simp [callUpdateLoop, h] <;> exact ih (i + 1)

lemma callUpdateLoop_retry_step (reportType : String) (errStation : ErrStation)
    (errSource : String) (att : Nat → AttemptOutcome) {i n : Nat}
    (h : retryable (att i)) :
    callUpdateLoop reportType errStation errSource att i (n + 1) =
      ((callUpdateLoop reportType errStation errSource att (i + 1) n).1,
        (callUpdateLoop reportType errStation errSource att (i + 1) n).2 + 1) := by
  rcases h with h | h <;> simp [callUpdateLoop, h]

lemma callUpdateLoop_nonretry_step (reportType : String) (errStation : ErrStation)
    (errSource : String) (att : Nat → AttemptOutcome) {i n : Nat}
    (h : nonRetryable (att i) = true) :
    callUpdateLoop reportType errStation errSource att i (n + 1) =
      (some (classifyNonRetryable reportType errStation (att i)), 1) := by
  cases ha : att i <;> simp [nonRetryable, ha] at h <;>
    simp [callUpdateLoop, ha, classifyNonRetryable]

/-- C2: the fetch retry loop of `_call_update` makes at most 3 attempts;
timeouts and source-unavailable errors are silently retried; two retryable
failures followed by a success succeed overall; three retryable failures
yield a 502 (`BAD_GATEWAY`) whose message names the upstream source; and a
non-retryable outcome at any attempt stops the loop right there with that
category's classified status. -/
theorem c2_call_update_retry_budget (reportType : String) (errStation : ErrStation)
    (errSource : String) (att : Nat → AttemptOutcome)
    (h01 : retryable (att 0)) (h11 : retryable (att 1)) :
    (∀ f : Nat → AttemptOutcome, (callUpdate reportType errStation errSource f).2 ≤ 3) ∧
    (att 2 = .ok → callUpdate reportType errStation errSource att = (none, 3)) ∧
    (retryable (att 2) →
      callUpdate reportType errStation errSource att =
        (some (ERRORS_5 errSource, httpBadGateway), 3) ∧
      ∃ pre post, ERRORS_5 errSource = pre ++ errSource ++ post) ∧
    (∀ f : Nat → AttemptOutcome, ∀ k, k < 3 → (∀ j, j < k → retryable (f j)) →
      nonRetryable (f k) = true →
      callUpdate reportType errStation errSource f =
        (some (classifyNonRetryable reportType errStation (f k)), k + 1)) := by
  refine ⟨fun f => callUpdateLoop_count_le reportType errStation errSource f 3 0, ?_, ?_, ?_⟩
  · intro h2
    simp only [callUpdate,
      callUpdateLoop_retry_step reportType errStation errSource att h01,
      callUpdateLoop_retry_step reportType errStation errSource att h11]
    simp [callUpdateLoop, h2]
  · intro h21
    refine ⟨?_, "Report Lookup Error: Unable to fetch report from ",
      ". You might wish to use \x27?onfail=cache\x27 to return the most recent report even if it\x27s not up-to-date",
      rfl⟩
    simp only [callUpdate,
      callUpdateLoop_retry_step reportType errStation errSource att h01,
      callUpdateLoop_retry_step reportType errStation errSource att h11,
      callUpdateLoop_retry_step reportType errStation errSource att h21]
    simp [callUpdateLoop]
  · intro f k hk hbefore hnon
    interval_cases k
    · simp only [callUpdate, callUpdateLoop_nonretry_step reportType errStation errSource f hnon]
    · simp only [callUpdate,
        callUpdateLoop_retry_step reportType errStation errSource f (hbefore 0 (by omega)),
        callUpdateLoop_nonretry_step reportType errStation errSource f hnon]
    · simp only [callUpdate,
        callUpdateLoop_retry_step reportType errStation errSource f (hbefore 0 (by omega)),
        callUpdateLoop_retry_step reportType errStation errSource f (hbefore 1 (by omega)),
        callUpdateLoop_nonretry_step reportType errStation errSource f hnon]

/-- A concrete outcome sequence for the C2 witness: timeout, source error, success. -/
def attSeqTTO : Nat → AttemptOutcome := fun i =>
  if i = 0 then AttemptOutcome.timeoutErr
  else if i = 1 then AttemptOutcome.sourceError
  else AttemptOutcome.ok

/-- Witness for C2 at a concrete outcome sequence (timeout, source error, success). -/
theorem c2_call_update_retry_budget_witness :
    retryable (attSeqTTO 0) ∧ retryable (attSeqTTO 1) ∧
    (attSeqTTO 2 = .ok →
      callUpdate "metar" (.str "KJFK") "NOAA" attSeqTTO = (none, 3)) := by
  refine ⟨Or.inl rfl, Or.inr rfl, ?_⟩
  exact (c2_call_update_retry_budget "metar" (.str "KJFK") "NOAA" attSeqTTO
    (Or.inl rfl) (Or.inr rfl)).2.1

/-! ## `ReportHandler._update_parser` (`handle/base.py` lines 198-236)

After `_call_update` succeeds, `parser._post_update()` performs the structural
parse; its outcome (success, `avwx.exceptions.BadStation`, or any other
exception) is supplied as a `PostUpdateOutcome`.  Only errors are returned. -/

inductive PostUpdateOutcome where
  | ok
  | badStation
  | unknownExc
  deriving DecidableEq

/-- The parser attributes `_update_parser` reads when building error payloads. -/
structure ParserCtx where
  station : String
  raw : String
  deriving DecidableEq

/-- An error payload dict: always an `error` key, sometimes a `raw` key. -/
structure ErrPayload where
  error : String
  raw : Option String := none
  deriving DecidableEq

/-- `ReportHandler._update_parser`: fetch via `_call_update`, then parse via
`parser._post_update()`; returns a `DataStatus` only on error. -/
def updateParser (reportType : String) (errStation : ErrStation) (errSource : String)
    (att : Nat → AttemptOutcome) (p : ParserCtx) (post : PostUpdateOutcome) :
    Option (ErrPayload × Nat) :=
  match (callUpdate reportType errStation errSource att).1 with
  | some e => some ({ error := e.1 }, e.2)
  | none =>
    match post with
    | .ok => none
    | .badStation => some ({ error := ERRORS_2 p.station }, httpBadRequest)
    | .unknownExc => some ({ error := ERRORS_1 reportType, raw := some p.raw }, httpInternalServerError)

/-- C8: when raw retrieval succeeds but the structural parse raises an
unexpected exception, `_update_parser` returns a 500 internal-server-error
status whose payload carries the raw report for diagnostics and whose message
is the "error report has been sent to the admin" parsing error — not the
502/400 codes used for fetch failures. -/
theorem c8_parse_failure_classified_500 (reportType : String) (errStation : ErrStation)
    (errSource : String) (att : Nat → AttemptOutcome) (p : ParserCtx)
    (hfetch : (callUpdate reportType errStation errSource att).1 = none) :
    updateParser reportType errStation errSource att p .unknownExc =
      some ({ error := ERRORS_1 reportType, raw := some p.raw }, httpInternalServerError) ∧
    httpInternalServerError = 500 ∧
    httpInternalServerError ≠ httpBadGateway ∧
    httpInternalServerError ≠ httpBadRequest ∧
    ∃ pre, ERRORS_1 reportType = pre ++ "admin" := by
  refine ⟨?_, rfl, by decide, by decide, ?_⟩
  · simp [updateParser, hfetch]
  · exact ⟨"Report Parsing Error: Could not parse " ++ reportType ++
      " report. An error report has been sent to the ", by simp [ERRORS_1, String.append_assoc]⟩

/-- Witness for C8: a successful fetch followed by a parse explosion. -/
theorem c8_parse_failure_classified_500_witness :
    (callUpdate "metar" (.str "KJFK") "NOAA" (fun _ => AttemptOutcome.ok)).1 = none ∧
    updateParser "metar" (.str "KJFK") "NOAA" (fun _ => AttemptOutcome.ok)
        { station := "KJFK", raw := "KJFK SPECI ..." } .unknownExc =
      some ({ error := ERRORS_1 "metar", raw := some "KJFK SPECI ..." }, httpInternalServerError) :=
  ⟨rfl, (c8_parse_failure_classified_500 "metar" (.str "KJFK") "NOAA"
    (fun _ => AttemptOutcome.ok) { station := "KJFK", raw := "KJFK SPECI ..." } rfl).1⟩

/-! ## `ReportHandler.fetch_report` and `_post_handle` (`handle/base.py` lines 238-366)

The data dicts flowing through the orchestrator have a fixed shape:

* a cache document always carries a `timestamp` (stamped by `Cache.update`)
  plus the report payload, modelled opaquely as `content`;
* the dicts produced by `_new_report` / error arms may carry `timestamp`,
  `error`, `raw` and the report payload (`data` key), each optional.

`_format_report` returns `data.get("data", data)` with the per-option
decoration happening inside the payload; the payload being opaque here, the
formatted body is the payload itself.  External effects (cache reads, the
fetch-and-parse of `_new_report`, `station.nearby()`, `station_data_for`,
`app.cache_only`, `has_expired` and the wall clock) are oracle fields of
`FetchWorld`.  Results are `(response dict, status code, number of
orchestration-level fetch attempts / `_new_report` calls)`. -/

structure ParseConfig where
  translate : Bool
  summary : Bool
  speech : Bool
  station : Bool
  aviowiki_data : Bool
  cache_on_fail : Bool
  nearest_on_fail : Bool
  distance : Option Int
  deriving DecidableEq

structure CacheDoc where
  timestamp : Int
  content : String
  deriving DecidableEq

structure RData where
  timestamp : Option Int := none
  error : Option String := none
  raw : Option String := none
  content : Option String := none
  deriving DecidableEq

structure MetaDict where
  timestamp : Int
  cacheTimestamp : Option Int := none
  warning : Option String := none
  deriving DecidableEq

structure Resp where
  meta : Option MetaDict := none
  error : Option String := none
  warning : Option String := none
  body : Option String := none
  raw : Option String := none
  timestamp : Option Int := none
  info : Option String := none
  deriving DecidableEq

structure Station where
  storage_code : String
  sends_reports : Bool
  deriving DecidableEq

structure FetchWorld where
  now : Int
  cacheOnly : String → Option String
  cacheGet : String → String → Bool → Option CacheDoc
  expired : String → Int → Bool
  newReport : String → String → RData × Nat
  nearest : String → Station
  stationInfo : String → String

/-- Viewing a cache document as a pipeline data dict. -/
def cacheToRData (d : CacheDoc) : RData :=
  { timestamp := some d.timestamp, content := some d.content }

/-- `BaseHandler.make_meta` (the `stations_updated` constant is elided). -/
def makeMeta (w : FetchWorld) : MetaDict :=
  { timestamp := w.now }

/-- `resp.update(data)` for an `RData` dict: keys present in `data` overwrite
the response's. -/
def respUpdate (r : Resp) (d : RData) : Resp :=
  { r with
    error := match d.error with | some e => some e | none => r.error
    raw := match d.raw with | some s => some s | none => r.raw
    timestamp := match d.timestamp with | some t => some t | none => r.timestamp
    body := match d.content with | some c => some c | none => r.body }

/-- `resp.update(self._format_report(data, config))`: `_format_report` returns
`data.get("data", data)`, so merge the payload when present, otherwise the
dict itself. -/
def formatMerge (r : Resp) (d : RData) : Resp :=
  match d.content with
  | some c => { r with body := some c }
  | none => respUpdate r d

/-- The warning annotation of the `nearest_on_fail` arm:
`resp["meta"]["warning"] = text`, falling back to the top level when the
recursive response has no `meta` key (`except KeyError`). -/
def attachWarning (r : Resp) (text : String) : Resp :=
  match r.meta with
  | some m => { r with meta := some { m with warning := some text } }
  | none => { r with warning := some text }

/-- Boolean substring test (`sub in s` in Python). -/
def listIsPre : List Char → List Char → Bool
  | [], _ => true
  | _ :: _, [] => false
  | a :: as, b :: bs => a = b && listIsPre as bs

def listHasSub (sub : List Char) : List Char → Bool
  | [] => listIsPre sub []
  | b :: bs => listIsPre sub (b :: bs) || listHasSub sub bs

def containsSub (sub s : String) : Bool :=
  listHasSub sub.toList s.toList

/-- The tail of `_post_handle` (lines 361-366): format the return data and
attach station info when requested (`station` is always a live object here,
so `if station and config.station` reduces to the flag). -/
def finishResp (w : FetchWorld) (meta : MetaDict) (data : RData) (st : Station)
    (cfg : ParseConfig) (code : Nat) : Resp × Nat × Nat :=
  let r1 := formatMerge { meta := some meta } data
  let r2 := if cfg.station then { r1 with info := some (w.stationInfo st.storage_code) } else r1
  (r2, code, 0)

/-- Lines 328-333 of `_post_handle`: the base `meta` dict, picking up
`cache-timestamp` when the incoming data carries a timestamp. -/
def metaFor (w : FetchWorld) (d : RData) : MetaDict :=
  match d.timestamp with
  | some t => { makeMeta w with cacheTimestamp := some t }
  | none => makeMeta w

/-- `ReportHandler._post_handle` (lines 319-366); `recur` stands for the
recursive `self.fetch_report` call of the `nearest_on_fail` arm. -/
def postHandle (w : FetchWorld) (recur : Station → ParseConfig → Resp × Nat × Nat)
    (data : RData) (code : Nat) (cache : Option CacheDoc) (st : Station)
    (cfg : ParseConfig) : Resp × Nat × Nat :=
  let meta1 : MetaDict := metaFor w data
  if code ≠ httpOk then
    if cfg.nearest_on_fail then
      let cfg2 := { cfg with nearest_on_fail := false }
      let r := recur (w.nearest st.storage_code) cfg2
      let text := "No report found at " ++ st.storage_code
      (attachWarning r.1 text, r.2.1, r.2.2)
    else if cfg.cache_on_fail then
      match cache with
      | none =>
        ({ meta := some meta1,
           error := some "No report or cache was found for the requested station" },
          httpNoContent, 0)
      | some cd =>
        let meta2 := { meta1 with cacheTimestamp := some cd.timestamp, warning := some ERRORS_7 }
        finishResp w meta2 (cacheToRData cd) st cfg httpOk
    else
      (respUpdate { meta := some meta1 } data, code, 0)
  else
    finishResp w meta1 data st cfg code

/-- The tail of `_handle_cache_only` (lines 250-252):
`with suppress(KeyError): if "ADVISORY" in data["raw"]: data["meta"]["warning"] = WARNINGS[0]`;
a missing `raw` or `meta` key raises the suppressed `KeyError`. -/
def advisoryFix (res : Resp × Nat × Nat) : Resp × Nat × Nat :=
  match res.1.raw, res.1.meta with
  | some rawStr, some m =>
    if containsSub "ADVISORY" rawStr then
      ({ res.1 with meta := some { m with warning := some WARNINGS_0 } }, res.2.1, res.2.2)
    else res
  | _, _ => res

/-- The body of `ReportHandler.fetch_report` (lines 298-316) together with
`_handle_cache_only` (243-253) and `_station_cache_or_fetch` (277-296);
`recur` stands for the recursive `fetch_report` call reached through
`_post_handle`. -/
def fetchReportStep (w : FetchWorld) (rt : String)
    (recur : Station → ParseConfig → Resp × Nat × Nat) (st : Station)
    (cfg : ParseConfig) : Resp × Nat × Nat :=
  match w.cacheOnly st.storage_code with
  | some rtc =>
    -- _handle_cache_only
    let dc : RData × Nat :=
      match w.cacheGet rtc st.storage_code true with
      | none => ({ error := some "No report found" }, httpNoContent)
      | some cd => (cacheToRData cd, httpOk)
    advisoryFix (postHandle w recur dc.1 dc.2 none st cfg)
  | none =>
    if st.sends_reports = false then
      ({ error := some (ERRORS_6 st.storage_code) }, httpNoContent, 0)
    else
      -- _station_cache_or_fetch with force_cache=True
      let cache := w.cacheGet rt st.storage_code true
      let fetched : RData × Nat × Nat :=
        match cache with
        | none =>
          let dc := w.newReport rt st.storage_code
          (dc.1, dc.2, 1)
        | some cd =>
          if w.expired rt cd.timestamp then
            let dc := w.newReport rt st.storage_code
            (dc.1, dc.2, 1)
          else (cacheToRData cd, httpOk, 0)
      let res := postHandle w recur fetched.1 fetched.2.1 cache st cfg
      (res.1, res.2.1, fetched.2.2 + res.2.2)

/-- `ReportHandler.fetch_report`, fuelled.  The fuel models the Python
recursion depth: fuel 0 plays the role of a `RecursionError` swallowed by the
outer `except Exception` arm (`ERRORS[1]`, 500).  The theorems below show
fuel 2 already makes the result fuel-independent. -/
def fetchReportFuel (w : FetchWorld) (rt : String) :
    Nat → Station → ParseConfig → Resp × Nat × Nat
  | 0, _, _ => ({ error := some (ERRORS_1 rt) }, httpInternalServerError, 0)
  | fuel + 1, st, cfg => fetchReportStep w rt (fetchReportFuel w rt fuel) st cfg

/-- `ReportHandler.fetch_report`; fuel 2 suffices (see `c1_...`). -/
def fetch_report (w : FetchWorld) (rt : String) (st : Station) (cfg : ParseConfig) :
    Resp × Nat × Nat :=
  fetchReportFuel w rt 2 st cfg

/-- In `_station_cache_or_fetch`, the branch that performs a live fetch:
the forced cache read found nothing, or the record is expired. -/
def staleOrMissing (w : FetchWorld) (rt : String) (st : Station) : Prop :=
  match w.cacheGet rt st.storage_code true with
  | none => True
  | some cd => w.expired rt cd.timestamp = true

lemma postHandle_recur_congr {w : FetchWorld} (a b : Station → ParseConfig → Resp × Nat × Nat)
    {data : RData} {code : Nat} {cache : Option CacheDoc} {st : Station} {cfg : ParseConfig}
    (h : a (w.nearest st.storage_code) { cfg with nearest_on_fail := false } =
         b (w.nearest st.storage_code) { cfg with nearest_on_fail := false }) :
    postHandle w a data code cache st cfg = postHandle w b data code cache st cfg := by
  simp only [postHandle, h]

lemma postHandle_nof_congr {w : FetchWorld} (a b : Station → ParseConfig → Resp × Nat × Nat)
    {data : RData} {code : Nat} {cache : Option CacheDoc} {st : Station} {cfg : ParseConfig}
    (h : cfg.nearest_on_fail = false) :
    postHandle w a data code cache st cfg = postHandle w b data code cache st cfg := by
  simp only [postHandle, h, Bool.false_eq_true, if_false]

lemma postHandle_count_nof {w : FetchWorld} {r : Station → ParseConfig → Resp × Nat × Nat}
    {data : RData} {code : Nat} {cache : Option CacheDoc} {st : Station} {cfg : ParseConfig}
    (h : cfg.nearest_on_fail = false) :
    (postHandle w r data code cache st cfg).2.2 = 0 := by
  simp only [postHandle, h, Bool.false_eq_true, if_false, finishResp]
  split
  · split
    · cases cache <;> simp [finishResp] <;> split <;> simp
    · simp
  · split <;> simp

lemma postHandle_count_le {w : FetchWorld} {r : Station → ParseConfig → Resp × Nat × Nat}
    (data : RData) (code : Nat) (cache : Option CacheDoc) {st : Station} {cfg : ParseConfig}
    (h : (r (w.nearest st.storage_code) { cfg with nearest_on_fail := false }).2.2 ≤ 1) :
    (postHandle w r data code cache st cfg).2.2 ≤ 1 := by
  simp only [postHandle, finishResp]
  split
  · split
    · exact h
    · split
      · cases cache <;> simp [finishResp] <;> split <;> simp
      · simp
  · split <;> simp

lemma advisoryFix_count (res : Resp × Nat × Nat) : (advisoryFix res).2.2 = res.2.2 := by
  unfold advisoryFix
  split
  · split <;> simp
  · simp

lemma fetchReportStep_recur_congr {w : FetchWorld} {rt : String}
    (a b : Station → ParseConfig → Resp × Nat × Nat) {st : Station} {cfg : ParseConfig}
    (h : a (w.nearest st.storage_code) { cfg with nearest_on_fail := false } =
         b (w.nearest st.storage_code) { cfg with nearest_on_fail := false }) :
    fetchReportStep w rt a st cfg = fetchReportStep w rt b st cfg := by
  unfold fetchReportStep
  split
  · simp only [postHandle_recur_congr a b h]
  · split
    · rfl
    · simp only [postHandle_recur_congr a b h]

lemma fetchReportStep_nof_congr {w : FetchWorld} {rt : String}
    (a b : Station → ParseConfig → Resp × Nat × Nat) {st : Station} {cfg : ParseConfig}
    (h : cfg.nearest_on_fail = false) :
    fetchReportStep w rt a st cfg = fetchReportStep w rt b st cfg := by
  unfold fetchReportStep
  split
  · simp only [postHandle_nof_congr a b h]
  · split
    · rfl
    · simp only [postHandle_nof_congr a b h]

lemma fetchReportStep_count_nof {w : FetchWorld} {rt : String}
    {r : Station → ParseConfig → Resp × Nat × Nat} {st : Station} {cfg : ParseConfig}
    (h : cfg.nearest_on_fail = false) :
    (fetchReportStep w rt r st cfg).2.2 ≤ 1 := by
  unfold fetchReportStep
  split
  · simp [advisoryFix_count, postHandle_count_nof h]
  · split
    · simp
    · cases hcg : w.cacheGet rt st.storage_code true with
      | none => simp [hcg, postHandle_count_nof h]
      | some cd =>
        by_cases hex : w.expired rt cd.timestamp <;>
          simp [hcg, hex, postHandle_count_nof h]

lemma fetchReportStep_count_le {w : FetchWorld} {rt : String}
    {r : Station → ParseConfig → Resp × Nat × Nat} {st : Station} {cfg : ParseConfig}
    (h : (r (w.nearest st.storage_code) { cfg with nearest_on_fail := false }).2.2 ≤ 1) :
    (fetchReportStep w rt r st cfg).2.2 ≤ 2 := by
  unfold fetchReportStep
  split
  · simp only [advisoryFix_count]
    exact (postHandle_count_le _ _ _ h).trans (by omega)
  · split
    · simp
    · cases hcg : w.cacheGet rt st.storage_code true with
      | none =>
        have hp := postHandle_count_le (w.newReport rt st.storage_code).1
          (w.newReport rt st.storage_code).2 none h
        simp only [hcg]
        omega
      | some cd =>
        by_cases hex : w.expired rt cd.timestamp
        · have hp := postHandle_count_le (w.newReport rt st.storage_code).1
            (w.newReport rt st.storage_code).2 (some cd) h
          simp only [hcg, hex, if_true]
          omega
        · have hp := postHandle_count_le (cacheToRData cd) httpOk (some cd) h
          simp only [hcg, hex, Bool.false_eq_true, if_false]
          omega

/-- With the `nearest_on_fail` flag off, one unit of fuel already decides the
result: the nearest-station recursion is dead. -/
lemma fetchReportFuel_nof_stable (w : FetchWorld) (rt : String) (st : Station)
    (cfg : ParseConfig) (h : cfg.nearest_on_fail = false) (f : Nat) :
    fetchReportFuel w rt (f + 1) st cfg = fetchReportFuel w rt 1 st cfg := by
  show fetchReportStep w rt (fetchReportFuel w rt f) st cfg =
    fetchReportStep w rt (fetchReportFuel w rt 0) st cfg
  exact fetchReportStep_nof_congr (fetchReportFuel w rt f) (fetchReportFuel w rt 0) h

lemma fetchReportFuel_count_nof (w : FetchWorld) (rt : String) (st : Station)
    (cfg : ParseConfig) (h : cfg.nearest_on_fail = false) (f : Nat) :
    (fetchReportFuel w rt (f + 1) st cfg).2.2 ≤ 1 := by
  show (fetchReportStep w rt (fetchReportFuel w rt f) st cfg).2.2 ≤ 1
  exact fetchReportStep_count_nof h

/-- Two units of fuel decide the result of `fetch_report` for every config:
the nearest-station recursion clears the flag, so it bottoms out after one hop. -/
lemma fetchReportFuel_stable (w : FetchWorld) (rt : String) (st : Station)
    (cfg : ParseConfig) (f : Nat) :
    fetchReportFuel w rt (f + 2) st cfg = fetchReportFuel w rt 2 st cfg := by
  cases hn : cfg.nearest_on_fail with
  | false =>
    exact (fetchReportFuel_nof_stable w rt st cfg hn (f + 1)).trans
      (fetchReportFuel_nof_stable w rt st cfg hn 1).symm
  | true =>
    show fetchReportStep w rt (fetchReportFuel w rt (f + 1)) st cfg =
      fetchReportStep w rt (fetchReportFuel w rt 1) st cfg
    exact fetchReportStep_recur_congr (fetchReportFuel w rt (f + 1)) (fetchReportFuel w rt 1)
      (fetchReportFuel_nof_stable w rt (w.nearest st.storage_code)
        { cfg with nearest_on_fail := false } rfl f)

/-- Orchestration-level fetch attempts are bounded by 2 for every fuel ≥ 2. -/
lemma fetchReportFuel_count (w : FetchWorld) (rt : String) (st : Station)
    (cfg : ParseConfig) (f : Nat) :
    (fetchReportFuel w rt (f + 2) st cfg).2.2 ≤ 2 := by
  show (fetchReportStep w rt (fetchReportFuel w rt (f + 1)) st cfg).2.2 ≤ 2
  exact fetchReportStep_count_le
    (fetchReportFuel_count_nof w rt (w.nearest st.storage_code)
      { cfg with nearest_on_fail := false } rfl f)

/-- C1: when the initial fetch for a reporting, non-cache-only station fails
and `nearest_on_fail` is set, `fetch_report` clears the flag, recurses exactly
once into `fetch_report` on the single nearest alternate station, annotates
the recursive result with a warning naming the original station and returns
that result's status code; moreover the recursion is fuel-independent from
depth 2 on and the orchestration-level fetch count is at most 2 for every
station and config, even when the nearest alternate also fails. -/
theorem c1_nearest_on_fail_single_hop (w : FetchWorld) (rt : String) (st : Station)
    (cfg : ParseConfig)
    (hco : w.cacheOnly st.storage_code = none)
    (hsr : st.sends_reports = true)
    (hstale : staleOrMissing w rt st)
    (hcode : (w.newReport rt st.storage_code).2 ≠ httpOk)
    (hnof : cfg.nearest_on_fail = true) :
    (∀ f s c, fetchReportFuel w rt (f + 2) s c = fetch_report w rt s c) ∧
    (∀ s c, (fetch_report w rt s c).2.2 ≤ 2) ∧
    fetch_report w rt st cfg =
      (attachWarning
        (fetch_report w rt (w.nearest st.storage_code)
          { cfg with nearest_on_fail := false }).1
        ("No report found at " ++ st.storage_code),
       (fetch_report w rt (w.nearest st.storage_code)
          { cfg with nearest_on_fail := false }).2.1,
       1 + (fetch_report w rt (w.nearest st.storage_code)
          { cfg with nearest_on_fail := false }).2.2) := by
  refine ⟨fun f s c => fetchReportFuel_stable w rt s c f,
    fun s c => fetchReportFuel_count w rt s c 0, ?_⟩
  have hr : fetchReportFuel w rt 1 (w.nearest st.storage_code)
      { cfg with nearest_on_fail := false } =
      fetch_report w rt (w.nearest st.storage_code)
      { cfg with nearest_on_fail := false } :=
    (fetchReportFuel_nof_stable w rt (w.nearest st.storage_code)
      { cfg with nearest_on_fail := false } rfl 1).symm
  show fetchReportStep w rt (fetchReportFuel w rt 1) st cfg = _
  unfold fetchReportStep
  simp only [hco, hsr, Bool.true_eq_false, if_false]
  unfold staleOrMissing at hstale
  cases hcg : w.cacheGet rt st.storage_code true with
  | none =>
    simp only [hcg, postHandle]
    rw [if_pos hcode]
    simp [hnof, hr]
  | some cd =>
    rw [hcg] at hstale
    simp only [hcg, hstale, if_true, postHandle]
    rw [if_pos hcode]
    simp [hnof, hr]

/-- C3: when the live fetch fails for a reporting, non-cache-only station and
`nearest_on_fail` is off: with `cache_on_fail` and a forced cache record the
result is 200 with the stale payload, a cache-timestamp and the non-empty
stale-data warning; with `cache_on_fail` and no cache record it is 204 with
the "no report or cache" error; without `cache_on_fail` the failure payload
and its original status code come back unchanged. -/
theorem c3_cache_on_fail_fallback (w : FetchWorld) (rt : String) (st : Station)
    (cfg : ParseConfig)
    (hco : w.cacheOnly st.storage_code = none)
    (hsr : st.sends_reports = true)
    (hstale : staleOrMissing w rt st)
    (hcode : (w.newReport rt st.storage_code).2 ≠ httpOk)
    (hnof : cfg.nearest_on_fail = false) :
    (cfg.cache_on_fail = true →
      ∀ cd, w.cacheGet rt st.storage_code true = some cd →
        fetch_report w rt st cfg =
          ({ meta := some { timestamp := w.now, cacheTimestamp := some cd.timestamp,
                            warning := some ERRORS_7 },
             body := some cd.content,
             info := if cfg.station then some (w.stationInfo st.storage_code) else none },
           httpOk, 1) ∧ ERRORS_7 ≠ "") ∧
    (cfg.cache_on_fail = true → w.cacheGet rt st.storage_code true = none →
      fetch_report w rt st cfg =
        ({ meta := some (metaFor w (w.newReport rt st.storage_code).1),
           error := some "No report or cache was found for the requested station" },
         httpNoContent, 1)) ∧
    (cfg.cache_on_fail = false →
      fetch_report w rt st cfg =
        (respUpdate { meta := some (metaFor w (w.newReport rt st.storage_code).1) }
           (w.newReport rt st.storage_code).1,
         (w.newReport rt st.storage_code).2, 1)) := by
  unfold staleOrMissing at hstale
  refine ⟨?_, ?_, ?_⟩
  · intro hcf cd hcg
    rw [hcg] at hstale
    refine ⟨?_, by decide⟩
    show fetchReportStep w rt (fetchReportFuel w rt 1) st cfg = _
    unfold fetchReportStep
    simp only [hco, hsr, Bool.true_eq_false, if_false, hcg, hstale, if_true, postHandle]
    rw [if_pos hcode]
    simp only [hnof, Bool.false_eq_true, if_false, hcf, if_true, finishResp,
      formatMerge, cacheToRData]
    cases hdt : (w.newReport rt st.storage_code).1.timestamp <;>
      cases hst : cfg.station <;> simp [hdt, hst, metaFor, makeMeta]
  · intro hcf hcg
    show fetchReportStep w rt (fetchReportFuel w rt 1) st cfg = _
    unfold fetchReportStep
    simp only [hco, hsr, Bool.true_eq_false, if_false, hcg, postHandle]
    rw [if_pos hcode]
    simp [hnof, hcf]
  · intro hcf
    show fetchReportStep w rt (fetchReportFuel w rt 1) st cfg = _
    unfold fetchReportStep
    simp only [hco, hsr, Bool.true_eq_false, if_false]
    cases hcg : w.cacheGet rt st.storage_code true with
    | none =>
      simp only [hcg, postHandle]
      rw [if_pos hcode]
      simp [hnof, hcf]
    | some cd =>
      rw [hcg] at hstale
      simp only [hcg, hstale, if_true, postHandle]
      rw [if_pos hcode]
      simp [hnof, hcf]

/-- A reporting station whose fetch fails in the witness worlds. -/
def witStation : Station := { storage_code := "AAAA", sends_reports := true }

/-- Witness world for C1: empty cache, fetch fails at AAAA, succeeds at the
nearest alternate BBBB. -/
def witWorldC1 : FetchWorld where
  now := 100
  cacheOnly := fun _ => none
  cacheGet := fun _ _ _ => none
  expired := fun _ _ => true
  newReport := fun _ code =>
    if code = "BBBB" then ({ content := some "fresh" }, httpOk)
    else ({ error := some "no data" }, httpBadGateway)
  nearest := fun _ => { storage_code := "BBBB", sends_reports := true }
  stationInfo := fun _ => ""

def witCfgNear : ParseConfig :=
  { translate := false, summary := false, speech := false, station := false,
    aviowiki_data := false, cache_on_fail := false, nearest_on_fail := true,
    distance := none }

/-- Witness for C1 at a concrete world. -/
theorem c1_nearest_on_fail_single_hop_witness :
    staleOrMissing witWorldC1 "metar" witStation ∧
    (witWorldC1.newReport "metar" witStation.storage_code).2 ≠ httpOk ∧
    fetch_report witWorldC1 "metar" witStation witCfgNear =
      (attachWarning
        (fetch_report witWorldC1 "metar" (witWorldC1.nearest witStation.storage_code)
          { witCfgNear with nearest_on_fail := false }).1
        ("No report found at " ++ witStation.storage_code),
       (fetch_report witWorldC1 "metar" (witWorldC1.nearest witStation.storage_code)
          { witCfgNear with nearest_on_fail := false }).2.1,
       1 + (fetch_report witWorldC1 "metar" (witWorldC1.nearest witStation.storage_code)
          { witCfgNear with nearest_on_fail := false }).2.2) :=
  ⟨trivial, by decide,
    (c1_nearest_on_fail_single_hop witWorldC1 "metar" witStation witCfgNear
      rfl rfl trivial (by decide) rfl).2.2⟩

/-- Witness world for C3: a stale cache record exists, the live fetch fails. -/
def witWorldC3 : FetchWorld where
  now := 100
  cacheOnly := fun _ => none
  cacheGet := fun _ _ _ => some { timestamp := 7, content := "stale payload" }
  expired := fun _ _ => true
  newReport := fun _ _ => ({ error := some "upstream down" }, httpBadGateway)
  nearest := fun _ => witStation
  stationInfo := fun _ => ""

def witCfgCache : ParseConfig :=
  { translate := false, summary := false, speech := false, station := false,
    aviowiki_data := false, cache_on_fail := true, nearest_on_fail := false,
    distance := none }

/-- Witness for C3 at a concrete world with a present-but-stale cache record. -/
theorem c3_cache_on_fail_fallback_witness :
    staleOrMissing witWorldC3 "metar" witStation ∧
    (witWorldC3.newReport "metar" witStation.storage_code).2 ≠ httpOk ∧
    (fetch_report witWorldC3 "metar" witStation witCfgCache =
      ({ meta := some { timestamp := witWorldC3.now, cacheTimestamp := some (7 : Int),
                        warning := some ERRORS_7 },
         body := some "stale payload",
         info := if witCfgCache.station then some (witWorldC3.stationInfo witStation.storage_code)
                 else none },
       httpOk, 1) ∧ ERRORS_7 ≠ "") :=
  ⟨rfl, by decide,
    (c3_cache_on_fail_fallback witWorldC3 "metar" witStation witCfgCache
      rfl rfl rfl (by decide) rfl).1 rfl { timestamp := 7, content := "stale payload" } rfl⟩

/-! ## `avwx_api/cache.py`

Report payloads are arbitrary nested structures; they become a JSON-like
tree whose objects are insertion-ordered association lists (Python dicts
keep insertion order; key uniqueness is a dict invariant).

`replace_keys` (lines 16-29) mutates a dict while iterating over
`data.items()`; the embedding `rkLoop` simulates the CPython semantics of
that loop faithfully:

* the dict state is split into `done` (entries before the iterator) and
  `todo` (entries at or after it);
* each call of `next` first compares the current size against the size at
  iterator creation (`n0`) and raises `RuntimeError` on mismatch (modelled
  as `.error .runtimeErr`) — the check precedes the exhaustion check, as in
  CPython's `dictiter_iternextitem`;
* `data.pop(key)` removes the visited entry (keys are unique); a dict
  assignment overwrites in place when the key exists and appends at the end
  otherwise;
* in the `k == key` branch with a dict value, `data[by_key]` holds the same
  object that the recursive call then mutates, so both `by_key` and the
  re-inserted `k` end up with the recursively processed value;
* the loop can run forever on pathological inputs (a pre-existing `by_key`
  entry next to a dict-valued `key` entry), so the simulator carries fuel and
  reports exhaustion as `.error .fuelOut`. -/

inductive JVal where
  | null
  | num (n : Int)
  | str (s : String)
  | obj (fields : List (String × JVal))

abbrev JObj := List (String × JVal)

inductive PyErr where
  | runtimeErr
  | fuelOut
  | keyError
  | attrError
  | valueError
  | deadlock
  deriving DecidableEq

def isObjB : JVal → Bool
  | .obj _ => true
  | _ => false

def hasKeyF (fs : JObj) (k : String) : Bool :=
  fs.any (fun e => e.1 = k)

def lookupF : JObj → String → Option JVal
  | [], _ => none
  | (k1, v1) :: rest, k => if k1 = k then some v1 else lookupF rest k

/-- Overwrite the first entry with key `k` in place (Python dict assignment
to an existing key keeps its position). -/
def setFirst : JObj → String → JVal → JObj
  | [], _, _ => []
  | (k1, v1) :: rest, k, v => if k1 = k then (k1, v) :: rest else (k1, v1) :: setFirst rest k v

/-- `data[k] = v` on the split dict state: overwrite in place when present,
append at the end (the end of `rest`) otherwise. -/
def assignPair (done rest : JObj) (k : String) (v : JVal) : JObj × JObj :=
  if hasKeyF done k then (setFirst done k v, rest)
  else if hasKeyF rest k then (done, setFirst rest k v)
  else (done, rest ++ [(k, v)])

/-- `data[k] = v` on a whole dict. -/
def setVal (fs : JObj) (k : String) (v : JVal) : JObj :=
  if hasKeyF fs k then setFirst fs k v else fs ++ [(k, v)]

/-- The `for k, v in data.items()` loop of `replace_keys`. -/
def rkLoop (key byKey : String) : Nat → Nat → JObj → JObj → Except PyErr JObj
  | 0, _, _, _ => .error .fuelOut
  | fuel + 1, n0, done, todo =>
    if done.length + todo.length ≠ n0 then .error .runtimeErr
    else
      match todo with
      | [] => .ok done
      | (k, v) :: rest =>
        if k = key then
          -- data[by_key] = data.pop(key); the popped entry is the visited one
          match v with
          | .obj vf =>
            -- the recursive call mutates v in place, so the value stored at
            -- by_key and the value re-inserted at k are both the result
            match rkLoop key byKey fuel vf.length [] vf with
            | .error e => .error e
            | .ok r =>
              let p1 := assignPair done rest byKey (.obj r)
              let p2 := assignPair p1.1 p1.2 k (.obj r)
              rkLoop key byKey fuel n0 p2.1 p2.2
          | _ =>
            let p1 := assignPair done rest byKey v
            rkLoop key byKey fuel n0 p1.1 p1.2
        else
          match v with
          | .obj vf =>
            match rkLoop key byKey fuel vf.length [] vf with
            | .error e => .error e
            | .ok r => rkLoop key byKey fuel n0 (done ++ [(k, .obj r)]) rest
          | _ => rkLoop key byKey fuel n0 (done ++ [(k, v)]) rest

/-- `replace_keys(data, key, by_key)` (`cache.py` lines 16-29). -/
def replace_keys (fuel : Nat) (data : Option JObj) (key byKey : String) :
    Except PyErr (Option JObj) :=
  match data with
  | none => .ok none
  | some fs => (rkLoop key byKey fuel fs.length [] fs).map some

/-- `Cache.has_expired` (lines 45-52): time is in seconds, `minutes`
defaults to 2; a missing timestamp counts as expired. -/
def has_expired (now : Int) (time : Option Int) (minutes : Int := 2) : Bool :=
  match time with
  | none => true
  | some t => decide (now > t + minutes * 60)

/-- Python `str.lower()` on ASCII report-type names (`String.toLower`
written over the character list so that it evaluates). -/
def pyLower (s : String) : String := ⟨s.data.map Char.toLower⟩

/-- The tables created by `Cache.__init__` (lines 36-43). -/
def cacheTables : List String := ["metar", "taf"]

/-- `data.get('timestamp')`: the stored value is the datetime written by
`Cache.update`; anything else counts as a missing timestamp. -/
def getTimestamp (fs : JObj) : Option Int :=
  match lookupF fs "timestamp" with
  | some (.num t) => some t
  | _ => none

/-- The `for i in range(5)` body of `Cache.get`: the connectivity retries
(`AutoReconnect`) are invisible against a deterministic store `db`, so each
iteration reads the same document; falling out of the loop returns `None`. -/
def getLoop (db : String → String → Option JObj) (now : Int) (fuel : Nat)
    (rtype station : String) (force : Bool) : Nat → Except PyErr (Option JObj)
  | 0 => .ok none
  | n + 1 =>
    match replace_keys fuel (db (pyLower rtype) station) "_$" "$" with
    | .error e => .error e
    | .ok d =>
      if force || (match d with
          | some fs => !(has_expired now (getTimestamp fs))
          | none => false) then .ok d
      else getLoop db now fuel rtype station force n

/-- `Cache.get` (lines 54-72).  `mongo` is whether `MONGO_URI` is set;
`db table station` is the `find_one` result.  An unknown report type raises
`KeyError` on the `self.tables` lookup. -/
def cache_get (mongo : Bool) (db : String → String → Option JObj) (now : Int)
    (fuel : Nat) (rtype station : String) (force : Bool := false) :
    Except PyErr (Option JObj) :=
  if !mongo then .ok none
  else if !(cacheTables.contains (pyLower rtype)) then .error .keyError
  else getLoop db now fuel rtype station force 5

/-- `Cache.update` (lines 74-91): escape `$` keys, stamp the timestamp, take
the id from `data['data'].get('station')`, and upsert once (connectivity
retries are invisible against a deterministic store).  Returns the single
upsert write `(id, document)` performed, or `none` when no backend is
configured. -/
def cache_update (mongo : Bool) (now : Int) (fuel : Nat) (rtype : String)
    (data : JObj) : Except PyErr (Option (Option JVal × JObj)) :=
  if !mongo then .ok none
  else
    match rkLoop "$" "_$" fuel data.length [] data with
    | .error e => .error e
    | .ok d1 =>
      let d2 := setVal d1 "timestamp" (.num now)
      match lookupF d2 "data" with
      | some (.obj inner) =>
        if !(cacheTables.contains (pyLower rtype)) then .error .keyError
        else .ok (some (lookupF inner "station", d2))
      | some _ => .error .attrError
      | none => .error .keyError

/-! ### Specification-side description of `replace_keys` on well-behaved payloads

On payloads whose dicts have unique keys, contain no `byKey` keys and whose
`key` entries hold non-dict values, the loop of `replace_keys` behaves as a
pure recursive rename: every non-`key` entry keeps its position with its
value processed recursively, and the `key` entry (if any) moves to the end
of its dict renamed to `byKey`, value untouched.  `renameV`/`renameTop`
state that rename; `cleanV`/`cleanF` state the well-behavedness;
`jfuelV`/`jfuelF` bound the loop steps, giving sufficient fuel. -/

mutual

def renameV (key byKey : String) : JVal → JVal
  | .null => .null
  | .num n => .num n
  | .str s => .str s
  | .obj fs => .obj (renameMap key byKey fs ++
      (match lookupF fs key with
       | some v => [(byKey, v)]
       | none => []))

def renameMap (key byKey : String) : JObj → JObj
  | [] => []
  | (k, v) :: rest =>
    if k = key then renameMap key byKey rest
    else (k, renameV key byKey v) :: renameMap key byKey rest

end

def renameTop (key byKey : String) (fs : JObj) : JObj :=
  renameMap key byKey fs ++
    (match lookupF fs key with
     | some v => [(byKey, v)]
     | none => [])

mutual

def cleanV (key byKey : String) : JVal → Bool
  | .obj fs => cleanF key byKey fs
  | _ => true

def cleanF (key byKey : String) : JObj → Bool
  | [] => true
  | (k, v) :: rest =>
    !(decide (k = byKey)) && (!(decide (k = key)) || !(isObjB v)) &&
      !(hasKeyF rest k) && cleanV key byKey v && cleanF key byKey rest

end

mutual

def jfuelV (key : String) : JVal → Nat
  | .obj fs => 1 + jfuelF key fs
  | _ => 0

def jfuelF (key : String) : JObj → Nat
  | [] => 1
  | (k, v) :: rest => (if k = key then 2 else 1 + jfuelV key v) + jfuelF key rest

end

/-- Entries already moved past by the loop never hold `key` or `byKey`
(needed when the popped `key` entry is re-assigned as `byKey`). -/
def doneOk (key byKey : String) (done : JObj) : Prop :=
  ∀ e ∈ done, e.1 ≠ key ∧ e.1 ≠ byKey

mutual

/-- Equality of payloads as key→value maps at every nesting level: objects
have the same key sets and every entry's value matches the other side's
lookup recursively; leaves are equal. -/
def MapEqV : JVal → JVal → Prop
  | .obj fs, .obj gs => (∀ k, hasKeyF fs k = hasKeyF gs k) ∧ MapEqF fs gs
  | a, b => a = b

def MapEqF : JObj → JObj → Prop
  | [], _ => True
  | (k, v) :: rest, gs => (∃ w, lookupF gs k = some w ∧ MapEqV v w) ∧ MapEqF rest gs

end

/-- C9: with no cache backend configured (`MONGO_URI` unset), `Cache.get`
returns `None` and `Cache.update` returns without writing, for every report
type, station and payload, raising nothing; against a world whose cache
always misses, the orchestrator performs exactly one live fetch per
`fetch_report` call on the ordinary path. -/
theorem c9_no_mongo_cache_disabled (db : String → String → Option JObj)
    (now nowF : Int) (fuel : Nat) (rtype station : String) (force : Bool) (data : JObj) :
    cache_get false db now fuel rtype station force = .ok none ∧
    cache_update false now fuel rtype data = .ok none ∧
    (∀ w : FetchWorld, (∀ r s f, w.cacheGet r s f = none) →
      ∀ st cfg, w.cacheOnly st.storage_code = none → st.sends_reports = true →
        cfg.nearest_on_fail = false →
        (fetch_report w rtype st cfg).2.2 = 1) := by
  refine ⟨rfl, rfl, ?_⟩
  intro w hw st cfg hco hsr hnof
  show (fetchReportStep w rtype (fetchReportFuel w rtype 1) st cfg).2.2 = 1
  unfold fetchReportStep
  simp [hco, hsr, hw, postHandle_count_nof hnof]

/-- Witness for C9 with a concrete world (only the third conjunct carries
hypotheses; the first two are closed already). -/
theorem c9_no_mongo_cache_disabled_witness :
    cache_get false (fun _ _ => none) 0 9 "metar" "KJFK" false = .ok none ∧
    (∀ r s f, witWorldC1.cacheGet r s f = none) ∧
    (fetch_report witWorldC1 "metar" witStation
      { witCfgNear with nearest_on_fail := false }).2.2 = 1 :=
  ⟨(c9_no_mongo_cache_disabled (fun _ _ => none) 0 0 9 "metar" "KJFK" false []).1,
    fun _ _ _ => rfl,
    (c9_no_mongo_cache_disabled (fun _ _ => none) 0 0 9 "metar" "KJFK" false []).2.2
      witWorldC1 (fun _ _ _ => rfl) witStation { witCfgNear with nearest_on_fail := false }
      rfl rfl rfl⟩

lemma getLoop_stale (db : String → String → Option JObj) (now : Int) (fuel : Nat)
    (rtype station : String) (fs' : JObj) (t : Int)
    (hrk : replace_keys fuel (db (pyLower rtype) station) "_$" "$" = .ok (some fs'))
    (hts : getTimestamp fs' = some t)
    (hexp : has_expired now (some t) = true) :
    ∀ n, getLoop db now fuel rtype station false n = .ok none := by
  intro n
  induction n with
  | zero => rfl
  | succ k ih => simp [getLoop, hrk, hts, hexp, ih]

/-- C6: `has_expired` is pure — a missing timestamp is expired, and otherwise
it reports exactly whether the record's age exceeds the max-age (`minutes`,
default 2); consequently an unforced `Cache.get` returns `None` whenever
`now - timestamp` exceeds two minutes and returns the (unescaped) record
whenever it does not. -/
theorem c6_cache_freshness (db : String → String → Option JObj) (now t : Int)
    (fuel : Nat) (rtype station : String) (fs' : JObj)
    (hrt : cacheTables.contains (pyLower rtype) = true)
    (hrk : replace_keys fuel (db (pyLower rtype) station) "_$" "$" = .ok (some fs'))
    (hts : getTimestamp fs' = some t) :
    (∀ m : Int, has_expired now none m = true) ∧
    (∀ u m : Int, has_expired now (some u) m = true ↔ 60 * m < now - u) ∧
    (60 * 2 < now - t → cache_get true db now fuel rtype station false = .ok none) ∧
    (now - t ≤ 60 * 2 → cache_get true db now fuel rtype station false = .ok (some fs')) := by
  refine ⟨fun _ => rfl, ?_, ?_, ?_⟩
  · intro u m
    simp only [has_expired, decide_eq_true_eq]
    omega
  · intro hold
    have hexp : has_expired now (some t) = true := by
      simp only [has_expired, decide_eq_true_eq]
      omega
    simp only [cache_get, hrt, Bool.not_true, Bool.false_eq_true, if_false,
      Bool.not_false, if_true]
    exact getLoop_stale db now fuel rtype station fs' t hrk hts hexp 5
  · intro hfresh
    have hexp : has_expired now (some t) = false := by
      simp only [has_expired, decide_eq_false_iff_not]
      omega
    simp only [cache_get, hrt, Bool.not_true, Bool.false_eq_true, if_false,
      Bool.not_false, if_true]
    rw [show (5 : Nat) = 4 + 1 from rfl]
    simp [getLoop, hrk, hts, hexp]

/-- A concrete stored record for the C6 witness: timestamp 60 seconds old. -/
def witCacheDoc : JObj := [("timestamp", JVal.num 0), ("raw", JVal.str "KJFK 12003KT")]

/-- Witness for C6: the 60-second-old record is served at `now = 60`. -/
theorem c6_cache_freshness_witness :
    cacheTables.contains (pyLower "metar") = true ∧
    replace_keys 9 ((fun _ _ => some witCacheDoc) (pyLower "metar") "KJFK") "_$" "$" =
      .ok (some witCacheDoc) ∧
    getTimestamp witCacheDoc = some 0 ∧
    ((60 : Int) - 0 ≤ 60 * 2 →
      cache_get true (fun _ _ => some witCacheDoc) 60 9 "metar" "KJFK" false =
        .ok (some witCacheDoc)) :=
  ⟨by decide, rfl, rfl,
    (c6_cache_freshness (fun _ _ => some witCacheDoc) 60 0 9 "metar" "KJFK" witCacheDoc
      (by decide) rfl rfl).2.2.2⟩

lemma hasKeyF_nil (k : String) : hasKeyF [] k = false := rfl

lemma hasKeyF_cons (k1 : String) (v1 : JVal) (rest : JObj) (k : String) :
    hasKeyF ((k1, v1) :: rest) k = (decide (k1 = k) || hasKeyF rest k) := by
  simp [hasKeyF]

lemma hasKeyF_append (xs ys : JObj) (k : String) :
    hasKeyF (xs ++ ys) k = (hasKeyF xs k || hasKeyF ys k) := by
  simp [hasKeyF]

lemma lookupF_append (xs ys : JObj) (k : String) :
    lookupF (xs ++ ys) k =
      match lookupF xs k with
      | some v => some v
      | none => lookupF ys k := by
  induction xs with
  | nil => simp [lookupF]
  | cons e rest ih =>
    obtain ⟨k1, v1⟩ := e
    by_cases h : k1 = k <;> simp [lookupF, h, ih]

lemma lookupF_eq_none_of_not_hasKey (fs : JObj) (k : String)
    (h : hasKeyF fs k = false) : lookupF fs k = none := by
  induction fs with
  | nil => rfl
  | cons e rest ih =>
    obtain ⟨k1, v1⟩ := e
    rw [hasKeyF_cons] at h
    simp only [Bool.or_eq_false_iff, decide_eq_false_iff_not] at h
    simp [lookupF, h.1, ih h.2]

lemma hasKeyF_of_lookupF_some (fs : JObj) (k : String) (v : JVal)
    (h : lookupF fs k = some v) : hasKeyF fs k = true := by
  induction fs with
  | nil => simp [lookupF] at h
  | cons e rest ih =>
    obtain ⟨k1, v1⟩ := e
    rw [hasKeyF_cons]
    by_cases hk : k1 = k
    · simp [hk]
    · simp only [lookupF, hk, if_false] at h
      simp [hk, ih h]

lemma lookupF_some_of_hasKeyF (fs : JObj) (k : String)
    (h : hasKeyF fs k = true) : ∃ v, lookupF fs k = some v := by
  induction fs with
  | nil => simp [hasKeyF] at h
  | cons e rest ih =>
    obtain ⟨k1, v1⟩ := e
    rw [hasKeyF_cons] at h
    by_cases hk : k1 = k
    · exact ⟨v1, by simp [lookupF, hk]⟩
    · rw [decide_eq_false hk, Bool.false_or] at h
      obtain ⟨v, hv⟩ := ih h
      exact ⟨v, by simp [lookupF, hk, hv]⟩

lemma renameMap_append (key byKey : String) (xs ys : JObj) :
    renameMap key byKey (xs ++ ys) = renameMap key byKey xs ++ renameMap key byKey ys := by
  induction xs with
  | nil => simp [renameMap]
  | cons e rest ih =>
    obtain ⟨k, v⟩ := e
    by_cases h : k = key <;> simp [renameMap, h, ih]

lemma lookupF_renameMap_ne (key byKey : String) (fs : JObj) (q : String) (h : q ≠ key) :
    lookupF (renameMap key byKey fs) q = Option.map (renameV key byKey) (lookupF fs q) := by
  induction fs with
  | nil => simp [renameMap, lookupF]
  | cons e rest ih =>
    obtain ⟨k, v⟩ := e
    by_cases hk : k = key
    · subst hk
      have hq : ¬(k = q) := fun hx => h hx.symm
      simp [renameMap, lookupF, hq, ih]
    · by_cases hq : k = q
      · subst hq
        simp [renameMap, hk, lookupF, h]
      · simp [renameMap, hk, lookupF, hq, ih]

lemma hasKeyF_renameMap_ne (key byKey : String) (fs : JObj) (q : String) (h : q ≠ key) :
    hasKeyF (renameMap key byKey fs) q = hasKeyF fs q := by
  induction fs with
  | nil => simp [renameMap]
  | cons e rest ih =>
    obtain ⟨k, v⟩ := e
    by_cases hk : k = key
    · subst hk
      have hq : ¬(k = q) := fun hx => h hx.symm
      simp [renameMap, hasKeyF_cons, hq, ih]
    · simp [renameMap, hk, hasKeyF_cons, ih]

lemma hasKeyF_renameMap_key (key byKey : String) (fs : JObj) :
    hasKeyF (renameMap key byKey fs) key = false := by
  induction fs with
  | nil => simp [renameMap, hasKeyF]
  | cons e rest ih =>
    obtain ⟨k, v⟩ := e
    by_cases hk : k = key <;> simp [renameMap, hk, hasKeyF_cons, ih]

lemma cleanF_cons_iff (key byKey k : String) (v : JVal) (rest : JObj) :
    cleanF key byKey ((k, v) :: rest) = true ↔
      k ≠ byKey ∧ (k = key → isObjB v = false) ∧ hasKeyF rest k = false ∧
        cleanV key byKey v = true ∧ cleanF key byKey rest = true := by
  simp only [cleanF, Bool.and_eq_true, Bool.not_eq_true', Bool.or_eq_true,
    decide_eq_false_iff_not, decide_eq_true_eq, Bool.not_eq_true]
  tauto

lemma cleanF_no_byKey (key byKey : String) (fs : JObj)
    (h : cleanF key byKey fs = true) : hasKeyF fs byKey = false := by
  induction fs with
  | nil => rfl
  | cons e rest ih =>
    obtain ⟨k, v⟩ := e
    rw [cleanF_cons_iff] at h
    simp [hasKeyF_cons, h.1, ih h.2.2.2.2]

lemma cleanF_lookup_key_nonobj (key byKey : String) (fs : JObj)
    (h : cleanF key byKey fs = true) :
    ∀ v, lookupF fs key = some v → isObjB v = false := by
  induction fs with
  | nil => intro v hv; simp [lookupF] at hv
  | cons e rest ih =>
    obtain ⟨k, v1⟩ := e
    rw [cleanF_cons_iff] at h
    intro v hv
    by_cases hk : k = key
    · simp only [lookupF, hk, if_true] at hv
      injection hv with hv1
      rw [← hv1]
      exact h.2.1 hk
    · simp only [lookupF, hk, if_false] at hv
      exact ih h.2.2.2.2 v hv

lemma sizeOf_val_lt_of_mem (fs : JObj) :
    ∀ e ∈ fs, sizeOf (Prod.snd e) < sizeOf (JVal.obj fs) := by
  induction fs with
  | nil => intro e he; simp at he
  | cons e1 rest ih =>
    intro e he
    rcases List.mem_cons.mp he with h | h
    · subst h
      obtain ⟨k, v⟩ := e
      simp
      omega
    · have := ih e h
      simp at this ⊢
      omega

lemma mapEqF_cons_right (xs gs : JObj) (q : String) (w0 : JVal)
    (h : MapEqF xs gs) (hk : ∀ e ∈ xs, e.1 ≠ q) :
    MapEqF xs ((q, w0) :: gs) := by
  induction xs with
  | nil => simp [MapEqF]
  | cons e rest ih =>
    obtain ⟨k, v⟩ := e
    simp only [MapEqF] at h ⊢
    obtain ⟨⟨w, hw, hvw⟩, hrest⟩ := h
    have hkq : ¬(q = k) := fun hx => (hk (k, v) (by simp)) (by simp [hx.symm])
    refine ⟨⟨w, ?_, hvw⟩, ih hrest (fun e he => hk e (by simp [he]))⟩
    simp [lookupF, hkq, hw]

lemma mapEqF_append_left (xs ys gs : JObj)
    (hx : MapEqF xs gs) (hy : MapEqF ys gs) : MapEqF (xs ++ ys) gs := by
  induction xs with
  | nil => simpa using hy
  | cons e rest ih =>
    obtain ⟨k, v⟩ := e
    simp only [MapEqF] at hx ⊢
    exact ⟨hx.1, ih hx.2⟩

lemma jfuelF_pos (key : String) (fs : JObj) : 1 ≤ jfuelF key fs := by
  induction fs with
  | nil => simp [jfuelF]
  | cons e rest ih =>
    obtain ⟨k, v⟩ := e
    by_cases hk : k = key <;> simp [jfuelF, hk] <;> omega

lemma doneOk_nil (key byKey : String) : doneOk key byKey [] := by
  intro e he
  simp at he

lemma doneOk_push (key byKey : String) (done : JObj) (h : doneOk key byKey done)
    (k : String) (v : JVal) (hk : k ≠ key) (hb : k ≠ byKey) :
    doneOk key byKey (done ++ [(k, v)]) := by
  intro e he
  rcases List.mem_append.mp he with h1 | h1
  · exact h e h1
  · simp at h1
    subst h1
    exact ⟨hk, hb⟩

lemma doneOk_hasKey (key byKey : String) (done : JObj) (h : doneOk key byKey done) :
    hasKeyF done byKey = false := by
  induction done with
  | nil => rfl
  | cons e rest ih =>
    obtain ⟨k, v⟩ := e
    have h1 := h (k, v) (by simp)
    rw [hasKeyF_cons]
    simp [h1.2, ih (fun e he => h e (by simp [he]))]

lemma rkLoop_nil_step (key byKey : String) (f n0 : Nat) (done : JObj)
    (h : done.length = n0) :
    rkLoop key byKey (f + 1) n0 done [] = .ok done := by
  simp [rkLoop, h]

lemma rkLoop_key_nonobj_step (key byKey : String) (f n0 : Nat) (done : JObj)
    (v : JVal) (rest : JObj) (hv : isObjB v = false)
    (hsz : done.length + (rest.length + 1) = n0)
    (hd : hasKeyF done byKey = false) (hr : hasKeyF rest byKey = false) :
    rkLoop key byKey (f + 1) n0 done ((key, v) :: rest) =
      rkLoop key byKey f n0 done (rest ++ [(byKey, v)]) := by
  cases v <;> simp_all [rkLoop, isObjB, assignPair]

lemma rkLoop_ne_nonobj_step (key byKey : String) (f n0 : Nat) (done : JObj)
    (k : String) (v : JVal) (rest : JObj) (hk : ¬(k = key)) (hv : isObjB v = false)
    (hsz : done.length + (rest.length + 1) = n0) :
    rkLoop key byKey (f + 1) n0 done ((k, v) :: rest) =
      rkLoop key byKey f n0 (done ++ [(k, v)]) rest := by
  cases v <;> simp_all [rkLoop, isObjB]

lemma rkLoop_ne_obj_step (key byKey : String) (f n0 : Nat) (done : JObj)
    (k : String) (vf rest : JObj) (r : JObj) (hk : ¬(k = key))
    (hsz : done.length + (rest.length + 1) = n0)
    (hinner : rkLoop key byKey f vf.length [] vf = .ok r) :
    rkLoop key byKey (f + 1) n0 done ((k, .obj vf) :: rest) =
      rkLoop key byKey f n0 (done ++ [(k, .obj r)]) rest := by
  simp [rkLoop, hk, hsz, hinner]

/-- The heart of C7: on a well-behaved dict, the faithful loop simulator of
`replace_keys` returns the pure recursive rename.  The first conjunct is the
plain run; the second is the run after the `key` entry has been popped and
re-appended as `byKey` (so the tail of the iteration holds that appended
entry, which the loop then visits and leaves alone). -/
lemma rkLoop_run (key byKey : String) (hkb : key ≠ byKey) : ∀ fuel : Nat,
    (∀ todo done, cleanF key byKey todo = true → doneOk key byKey done →
      jfuelF key todo ≤ fuel →
      rkLoop key byKey fuel (done.length + todo.length) done todo =
        .ok (done ++ renameTop key byKey todo)) ∧
    (∀ rest v0 done, cleanF key byKey rest = true → hasKeyF rest key = false →
      isObjB v0 = false → jfuelF key rest + 1 ≤ fuel →
      rkLoop key byKey fuel (done.length + (rest.length + 1)) done (rest ++ [(byKey, v0)]) =
        .ok (done ++ renameMap key byKey rest ++ [(byKey, v0)])) := by
  intro fuel
  induction fuel with
  | zero =>
    constructor
    · intro todo done _ _ hf
      exact absurd hf (by have := jfuelF_pos key todo; omega)
    · intro rest v0 done _ _ _ hf
      exact absurd hf (by have := jfuelF_pos key rest; omega)
  | succ f ih =>
    obtain ⟨ih1, ih2⟩ := ih
    constructor
    · intro todo done hc hd hf
      cases todo with
      | nil =>
        rw [rkLoop_nil_step key byKey f _ done (by simp)]
        simp [renameTop, renameMap, lookupF]
      | cons e rest =>
        obtain ⟨k, v⟩ := e
        rw [cleanF_cons_iff] at hc
        obtain ⟨hkb1, hko, hnd, hcv, hcrest⟩ := hc
        have hfc : jfuelF key ((k, v) :: rest) ≤ f + 1 := hf
        simp only [List.length_cons]
        by_cases hkk : k = key
        · subst hkk
          have hvno : isObjB v = false := hko rfl
          have hd2 : hasKeyF done byKey = false := doneOk_hasKey k byKey done hd
          have hr2 : hasKeyF rest byKey = false := cleanF_no_byKey k byKey rest hcrest
          have hfr : jfuelF k rest + 1 ≤ f := by
            simp [jfuelF] at hfc
            omega
          rw [rkLoop_key_nonobj_step k byKey f _ done v rest hvno rfl hd2 hr2]
          rw [ih2 rest v done hcrest hnd hvno hfr]
          simp [renameTop, renameMap, lookupF]
        · have hdup : ∀ u : JVal, doneOk key byKey (done ++ [(k, u)]) :=
            fun u => doneOk_push key byKey done hd k u hkk hkb1
          have hlen : ∀ u : JVal, (done ++ [(k, u)]).length = done.length + 1 := by
            simp
          cases v with
          | obj vf =>
            have hfin : jfuelF key vf ≤ f := by
              simp only [jfuelF, jfuelV, if_neg hkk] at hfc
              omega
            have hfrest : jfuelF key rest ≤ f := by
              simp only [jfuelF, if_neg hkk] at hfc
              omega
            have hinner := ih1 vf [] hcv (doneOk_nil key byKey) hfin
            simp only [List.length_nil, Nat.zero_add, List.nil_append] at hinner
            rw [rkLoop_ne_obj_step key byKey f _ done k vf rest _ hkk rfl hinner]
            have hcont := ih1 rest (done ++ [(k, .obj (renameTop key byKey vf))]) hcrest
              (hdup _) hfrest
            rw [hlen _] at hcont
            rw [show done.length + (rest.length + 1) = done.length + 1 + rest.length by omega]
            rw [hcont]
            simp [renameTop, renameMap, renameV, lookupF, hkk]
          | null =>
            have hfrest : jfuelF key rest ≤ f := by
              simp only [jfuelF, jfuelV, if_neg hkk] at hfc
              omega
            rw [rkLoop_ne_nonobj_step key byKey f _ done k JVal.null rest hkk rfl rfl]
            have hcont := ih1 rest (done ++ [(k, JVal.null)]) hcrest (hdup _) hfrest
            rw [hlen _] at hcont
            rw [show done.length + (rest.length + 1) = done.length + 1 + rest.length by omega]
            rw [hcont]
            simp [renameTop, renameMap, renameV, lookupF, hkk]
          | num n =>
            have hfrest : jfuelF key rest ≤ f := by
              simp only [jfuelF, jfuelV, if_neg hkk] at hfc
              omega
            rw [rkLoop_ne_nonobj_step key byKey f _ done k (JVal.num n) rest hkk rfl rfl]
            have hcont := ih1 rest (done ++ [(k, JVal.num n)]) hcrest (hdup _) hfrest
            rw [hlen _] at hcont
            rw [show done.length + (rest.length + 1) = done.length + 1 + rest.length by omega]
            rw [hcont]
            simp [renameTop, renameMap, renameV, lookupF, hkk]
          | str s =>
            have hfrest : jfuelF key rest ≤ f := by
              simp only [jfuelF, jfuelV, if_neg hkk] at hfc
              omega
            rw [rkLoop_ne_nonobj_step key byKey f _ done k (JVal.str s) rest hkk rfl rfl]
            have hcont := ih1 rest (done ++ [(k, JVal.str s)]) hcrest (hdup _) hfrest
            rw [hlen _] at hcont
            rw [show done.length + (rest.length + 1) = done.length + 1 + rest.length by omega]
            rw [hcont]
            simp [renameTop, renameMap, renameV, lookupF, hkk]
    · intro rest v0 done hc hnk hv0 hf
      cases rest with
      | nil =>
        have hf1 : 1 ≤ f := by
          simp [jfuelF] at hf
          omega
        cases f with
        | zero => omega
        | succ f2 =>
          have hbk : ¬(byKey = key) := fun hx => hkb hx.symm
          simp only [List.nil_append, List.length_nil, Nat.zero_add]
          rw [rkLoop_ne_nonobj_step key byKey (f2 + 1) _ done byKey v0 [] hbk hv0
            (by simp only [List.length_append, List.length_cons, List.length_nil] <;> omega)]
          rw [rkLoop_nil_step key byKey f2 _ (done ++ [(byKey, v0)]) (by simp only [List.length_append, List.length_cons, List.length_nil] <;> omega)]
          simp [renameMap]
      | cons e rest2 =>
        obtain ⟨k, v⟩ := e
        rw [cleanF_cons_iff] at hc
        obtain ⟨hkb1, _, hnd, hcv, hcrest⟩ := hc
        rw [hasKeyF_cons] at hnk
        simp only [Bool.or_eq_false_iff, decide_eq_false_iff_not] at hnk
        obtain ⟨hkk, hnk2⟩ := hnk
        have hfc : jfuelF key ((k, v) :: rest2) + 1 ≤ f + 1 := hf
        have hlen : ∀ u : JVal, (done ++ [(k, u)]).length = done.length + 1 := by
          simp
        simp only [List.cons_append, List.length_cons]
        cases v with
        | obj vf =>
          have hfin : jfuelF key vf ≤ f := by
            simp only [jfuelF, jfuelV, if_neg hkk] at hfc
            omega
          have hfrest : jfuelF key rest2 + 1 ≤ f := by
            simp only [jfuelF, if_neg hkk] at hfc
            omega
          have hinner := ih1 vf [] hcv (doneOk_nil key byKey) hfin
          simp only [List.length_nil, Nat.zero_add, List.nil_append] at hinner
          rw [rkLoop_ne_obj_step key byKey f _ done k vf (rest2 ++ [(byKey, v0)]) _ hkk
            (by simp only [List.length_append, List.length_cons, List.length_nil] <;> omega) hinner]
          have hcont := ih2 rest2 v0 (done ++ [(k, .obj (renameTop key byKey vf))]) hcrest
            hnk2 hv0 hfrest
          rw [hlen _] at hcont
          rw [show done.length + (rest2.length + 1 + 1) = done.length + 1 + (rest2.length + 1)
            by omega]
          rw [hcont]
          simp [renameMap, renameV, renameTop, hkk]
        | null =>
          have hfrest : jfuelF key rest2 + 1 ≤ f := by
            simp only [jfuelF, jfuelV, if_neg hkk] at hfc
            omega
          rw [rkLoop_ne_nonobj_step key byKey f _ done k JVal.null (rest2 ++ [(byKey, v0)])
            hkk rfl (by simp only [List.length_append, List.length_cons, List.length_nil] <;> omega)]
          have hcont := ih2 rest2 v0 (done ++ [(k, JVal.null)]) hcrest hnk2 hv0 hfrest
          rw [hlen _] at hcont
          rw [show done.length + (rest2.length + 1 + 1) = done.length + 1 + (rest2.length + 1)
            by omega]
          rw [hcont]
          simp [renameMap, renameV, renameTop, hkk]
        | num n =>
          have hfrest : jfuelF key rest2 + 1 ≤ f := by
            simp only [jfuelF, jfuelV, if_neg hkk] at hfc
            omega
          rw [rkLoop_ne_nonobj_step key byKey f _ done k (JVal.num n) (rest2 ++ [(byKey, v0)])
            hkk rfl (by simp only [List.length_append, List.length_cons, List.length_nil] <;> omega)]
          have hcont := ih2 rest2 v0 (done ++ [(k, JVal.num n)]) hcrest hnk2 hv0 hfrest
          rw [hlen _] at hcont
          rw [show done.length + (rest2.length + 1 + 1) = done.length + 1 + (rest2.length + 1)
            by omega]
          rw [hcont]
          simp [renameMap, renameV, renameTop, hkk]
        | str s =>
          have hfrest : jfuelF key rest2 + 1 ≤ f := by
            simp only [jfuelF, jfuelV, if_neg hkk] at hfc
            omega
          rw [rkLoop_ne_nonobj_step key byKey f _ done k (JVal.str s) (rest2 ++ [(byKey, v0)])
            hkk rfl (by simp only [List.length_append, List.length_cons, List.length_nil] <;> omega)]
          have hcont := ih2 rest2 v0 (done ++ [(k, JVal.str s)]) hcrest hnk2 hv0 hfrest
          rw [hlen _] at hcont
          rw [show done.length + (rest2.length + 1 + 1) = done.length + 1 + (rest2.length + 1)
            by omega]
          rw [hcont]
          simp [renameMap, renameV, renameTop, hkk]

lemma cleanV_nonobj (key byKey : String) (v : JVal) (h : isObjB v = false) :
    cleanV key byKey v = true := by
  cases v <;> simp_all [isObjB, cleanV]

lemma renameV_obj (key byKey : String) (fs : JObj) :
    renameV key byKey (.obj fs) = .obj (renameTop key byKey fs) := by
  simp [renameV, renameTop]

lemma cleanV_obj (key byKey : String) (fs : JObj) :
    cleanV key byKey (.obj fs) = cleanF key byKey fs := by
  simp [cleanV]

lemma mapEqV_refl_nonobj (v : JVal) (h : isObjB v = false) : MapEqV v v := by
  cases v <;> simp_all [isObjB, MapEqV]

lemma cleanF_append_of (key byKey : String) (xs ys : JObj)
    (hx : cleanF key byKey xs = true) (hy : cleanF key byKey ys = true)
    (hdisj : ∀ e ∈ xs, hasKeyF ys e.1 = false) :
    cleanF key byKey (xs ++ ys) = true := by
  induction xs with
  | nil => simpa using hy
  | cons e rest ih =>
    obtain ⟨k, v⟩ := e
    rw [cleanF_cons_iff] at hx
    rw [List.cons_append, cleanF_cons_iff]
    refine ⟨hx.1, hx.2.1, ?_, hx.2.2.2.1, ih hx.2.2.2.2 (fun e he => hdisj e (by simp [he]))⟩
    rw [hasKeyF_append, hx.2.2.1, Bool.false_or]
    exact hdisj (k, v) (by simp)

lemma mem_renameMap (key byKey : String) (fs : JObj) :
    ∀ e ∈ renameMap key byKey fs, e.1 ≠ key ∧ hasKeyF fs e.1 = true := by
  induction fs with
  | nil => intro e he; simp [renameMap] at he
  | cons e1 rest ih =>
    obtain ⟨k, v⟩ := e1
    intro e he
    by_cases hk : k = key
    · simp only [renameMap, hk, if_true] at he
      have := ih e he
      exact ⟨this.1, by simp [hasKeyF_cons, this.2]⟩
    · simp only [renameMap, hk, if_false] at he
      rcases List.mem_cons.mp he with h1 | h1
      · subst h1
        exact ⟨hk, by simp [hasKeyF_cons]⟩
      · have := ih e h1
        exact ⟨this.1, by simp [hasKeyF_cons, this.2]⟩

lemma cleanF_mem_cleanV (key byKey : String) (fs : JObj)
    (hc : cleanF key byKey fs = true) :
    ∀ e ∈ fs, cleanV key byKey e.2 = true := by
  induction fs with
  | nil => intro e he; simp at he
  | cons e1 rest ih =>
    obtain ⟨k, v⟩ := e1
    rw [cleanF_cons_iff] at hc
    intro e he
    rcases List.mem_cons.mp he with h1 | h1
    · subst h1
      exact hc.2.2.2.1
    · exact ih hc.2.2.2.2 e h1

lemma cleanF_renameMap (key byKey : String) (fs : JObj)
    (hc : cleanF key byKey fs = true)
    (hP : ∀ e ∈ fs, cleanV byKey key (renameV key byKey e.2) = true) :
    cleanF byKey key (renameMap key byKey fs) = true := by
  induction fs with
  | nil => simp [renameMap, cleanF]
  | cons e1 rest ih =>
    obtain ⟨k, v⟩ := e1
    rw [cleanF_cons_iff] at hc
    obtain ⟨hkb1, _, hnd, _, hcrest⟩ := hc
    by_cases hk : k = key
    · simp only [renameMap, hk, if_true]
      exact ih hcrest (fun e he => hP e (by simp [he]))
    · simp only [renameMap, hk, if_false]
      rw [cleanF_cons_iff]
      refine ⟨hk, fun hkb2 => absurd hkb2 hkb1, ?_,
        hP (k, v) (by simp), ih hcrest (fun e he => hP e (by simp [he]))⟩
      rw [hasKeyF_renameMap_ne key byKey rest k hk]
      exact hnd

lemma cleanF_renameTop (key byKey : String) (hkb : key ≠ byKey) (fs : JObj)
    (hc : cleanF key byKey fs = true)
    (hP : ∀ e ∈ fs, cleanV byKey key (renameV key byKey e.2) = true) :
    cleanF byKey key (renameTop key byKey fs) = true := by
  unfold renameTop
  have hnb : hasKeyF fs byKey = false := cleanF_no_byKey key byKey fs hc
  apply cleanF_append_of
  · exact cleanF_renameMap key byKey fs hc hP
  · cases hl : lookupF fs key with
    | none => simp [cleanF]
    | some v =>
      have hvno : isObjB v = false := cleanF_lookup_key_nonobj key byKey fs hc v hl
      rw [cleanF_cons_iff]
      exact ⟨fun hx => hkb hx.symm, fun _ => hvno, rfl,
        cleanV_nonobj byKey key v hvno, rfl⟩
  · intro e he
    have hm := mem_renameMap key byKey fs e he
    cases hl : lookupF fs key with
    | none => simp [hasKeyF]
    | some v =>
      rw [hasKeyF_cons]
      have : ¬(byKey = e.1) := by
        intro hx
        rw [← hx] at hm
        rw [hm.2] at hnb
        exact absurd hnb (by simp)
      simp [this, hasKeyF]

/-- Flipping direction: a payload clean for the write direction produces a
written form clean for the read direction. -/
lemma clean_flip (key byKey : String) (hkb : key ≠ byKey) :
    ∀ n : Nat, ∀ v : JVal, sizeOf v ≤ n → cleanV key byKey v = true →
      cleanV byKey key (renameV key byKey v) = true := by
  intro n
  induction n with
  | zero =>
    intro v hs
    cases v <;> simp at hs
  | succ n ihn =>
    intro v hs hc
    cases v with
    | null => simp [renameV, cleanV]
    | num k => simp [renameV, cleanV]
    | str s => simp [renameV, cleanV]
    | obj fs =>
      rw [renameV_obj, cleanV_obj]
      rw [cleanV_obj] at hc
      apply cleanF_renameTop key byKey hkb fs hc
      intro e he
      have hsz := sizeOf_val_lt_of_mem fs e he
      have hsz2 : sizeOf e.2 ≤ n := by
        simp only [JVal.obj.sizeOf_spec] at hsz hs
        omega
      exact ihn e.2 hsz2 (cleanF_mem_cleanV key byKey fs hc e he)

lemma renameTop_roundtrip_shape (key byKey : String) (hkb : key ≠ byKey) (fs : JObj)
    (hc : cleanF key byKey fs = true) :
    renameTop byKey key (renameTop key byKey fs) =
      renameMap byKey key (renameMap key byKey fs) ++
        (match lookupF fs key with
         | some v => [(key, v)]
         | none => []) := by
  have hnb : hasKeyF fs byKey = false := cleanF_no_byKey key byKey fs hc
  have hlnb : lookupF fs byKey = none := lookupF_eq_none_of_not_hasKey fs byKey hnb
  have hbk : byKey ≠ key := fun hx => hkb hx.symm
  conv_lhs => rw [renameTop]
  rw [show renameTop key byKey fs = renameMap key byKey fs ++
      (match lookupF fs key with
       | some v => [(byKey, v)]
       | none => []) from rfl]
  rw [renameMap_append, lookupF_append, lookupF_renameMap_ne key byKey fs byKey hbk, hlnb]
  cases hl : lookupF fs key with
  | none => simp [renameMap, lookupF]
  | some v => simp [renameMap, lookupF]

lemma hasKeyF_roundtrip (key byKey : String) (hkb : key ≠ byKey) (fs : JObj)
    (hc : cleanF key byKey fs = true) :
    ∀ q, hasKeyF (renameTop byKey key (renameTop key byKey fs)) q = hasKeyF fs q := by
  intro q
  rw [renameTop_roundtrip_shape key byKey hkb fs hc, hasKeyF_append]
  have hbk : byKey ≠ key := fun hx => hkb hx.symm
  have hnb : hasKeyF fs byKey = false := cleanF_no_byKey key byKey fs hc
  by_cases hq1 : q = byKey
  · rw [hq1, hasKeyF_renameMap_key byKey key _, hnb]
    cases hl : lookupF fs key <;> simp [hasKeyF_cons, hasKeyF, hkb]
  · by_cases hq2 : q = key
    · rw [hq2, hasKeyF_renameMap_ne byKey key _ key hkb, hasKeyF_renameMap_key key byKey fs]
      cases hl : lookupF fs key with
      | none =>
        have hfk : hasKeyF fs key = false := by
          by_contra h
          rw [Bool.not_eq_false] at h
          obtain ⟨v, hv⟩ := lookupF_some_of_hasKeyF fs key h
          rw [hv] at hl
          cases hl
        simp [hfk]
        rfl
      | some v =>
        simp [hasKeyF_cons, hasKeyF_of_lookupF_some fs key v hl]
    · rw [hasKeyF_renameMap_ne byKey key _ q hq1, hasKeyF_renameMap_ne key byKey fs q hq2]
      have hq2s : ¬(key = q) := fun hx => hq2 hx.symm
      cases hl : lookupF fs key <;> simp [hasKeyF_cons, hasKeyF, hq2s]

lemma mapEqF_double (key byKey : String) (fs : JObj)
    (hc : cleanF key byKey fs = true)
    (hP : ∀ e ∈ fs, MapEqV (renameV byKey key (renameV key byKey e.2)) e.2) :
    MapEqF (renameMap byKey key (renameMap key byKey fs)) fs := by
  induction fs with
  | nil => simp [renameMap, MapEqF]
  | cons e1 rest ih =>
    obtain ⟨k, v⟩ := e1
    rw [cleanF_cons_iff] at hc
    obtain ⟨hkb1, _, hnd, _, hcrest⟩ := hc
    by_cases hk : k = key
    · simp only [renameMap, hk, if_true]
      apply mapEqF_cons_right
      · exact ih hcrest (fun e he => hP e (by simp [he]))
      · intro e he hxk
        have h1 := (mem_renameMap byKey key _ e he).2
        rw [hxk, hasKeyF_renameMap_key key byKey rest] at h1
        exact absurd h1 (by simp)
    · simp only [renameMap, if_neg hk, if_neg hkb1]
      simp only [MapEqF]
      constructor
      · exact ⟨v, by simp [lookupF], hP (k, v) (by simp)⟩
      · apply mapEqF_cons_right
        · exact ih hcrest (fun e he => hP e (by simp [he]))
        · intro e he hxk
          have h1 := (mem_renameMap byKey key _ e he).2
          rw [hxk, hasKeyF_renameMap_ne key byKey rest k hk, hnd] at h1
          exact absurd h1 (by simp)

/-- The round trip of C7: writing then reading a well-behaved payload
restores it as a key→value map at every nesting level. -/
lemma roundtrip_mapeq (key byKey : String) (hkb : key ≠ byKey) :
    ∀ n : Nat, ∀ v : JVal, sizeOf v ≤ n → cleanV key byKey v = true →
      MapEqV (renameV byKey key (renameV key byKey v)) v := by
  intro n
  induction n with
  | zero =>
    intro v hs
    cases v <;> simp at hs
  | succ n ihn =>
    intro v hs hc
    cases v with
    | null => simp [renameV, MapEqV]
    | num k => simp [renameV, MapEqV]
    | str s => simp [renameV, MapEqV]
    | obj fs =>
      rw [cleanV_obj] at hc
      rw [renameV_obj, renameV_obj]
      simp only [MapEqV]
      have hP : ∀ e ∈ fs, MapEqV (renameV byKey key (renameV key byKey e.2)) e.2 := by
        intro e he
        have hsz := sizeOf_val_lt_of_mem fs e he
        have hsz2 : sizeOf e.2 ≤ n := by
          simp only [JVal.obj.sizeOf_spec] at hsz hs
          omega
        exact ihn e.2 hsz2 (cleanF_mem_cleanV key byKey fs hc e he)
      constructor
      · exact hasKeyF_roundtrip key byKey hkb fs hc
      · rw [renameTop_roundtrip_shape key byKey hkb fs hc]
        apply mapEqF_append_left
        · exact mapEqF_double key byKey fs hc hP
        · cases hl : lookupF fs key with
          | none => simp [MapEqF]
          | some v0 =>
            have hvno := cleanF_lookup_key_nonobj key byKey fs hc v0 hl
            simp only [MapEqF]
            exact ⟨⟨v0, hl, mapEqV_refl_nonobj v0 hvno⟩, trivial⟩

/-- C7 (amended): for payloads whose dicts have unique keys, contain no
`_$` keys and whose `$` entries hold non-dict values, `Cache.update`'s
`replace_keys(data, '$', '_$')` replaces every `$` key by `_$` (recursively,
the `$` entry of each dict moving to its end), `Cache.get`'s
`replace_keys(data, '_$', '$')` maps the written form back, and the
read-back of a written record restores the original payload as a key→value
map at every nesting level. -/
theorem c7_replace_keys_roundtrip (fs : JObj) (f1 f2 : Nat)
    (hc : cleanF "$" "_$" fs = true)
    (hf1 : jfuelF "$" fs ≤ f1)
    (hf2 : jfuelF "_$" (renameTop "$" "_$" fs) ≤ f2) :
    replace_keys f1 (some fs) "$" "_$" = .ok (some (renameTop "$" "_$" fs)) ∧
    replace_keys f2 (some (renameTop "$" "_$" fs)) "_$" "$" =
      .ok (some (renameTop "_$" "$" (renameTop "$" "_$" fs))) ∧
    MapEqV (.obj (renameTop "_$" "$" (renameTop "$" "_$" fs))) (.obj fs) := by
  have hkb : ("$" : String) ≠ "_$" := by decide
  have hW : cleanF "_$" "$" (renameTop "$" "_$" fs) = true := by
    have h := clean_flip "$" "_$" hkb (sizeOf (JVal.obj fs)) (JVal.obj fs) le_rfl
      (by rw [cleanV_obj]; exact hc)
    rw [renameV_obj, cleanV_obj] at h
    exact h
  refine ⟨?_, ?_, ?_⟩
  · have h := (rkLoop_run "$" "_$" hkb f1).1 fs [] hc (doneOk_nil _ _) hf1
    simp only [List.length_nil, Nat.zero_add, List.nil_append] at h
    simp [replace_keys, h, Except.map]
  · have h := (rkLoop_run "_$" "$" (by decide) f2).1 (renameTop "$" "_$" fs) [] hW
      (doneOk_nil _ _) hf2
    simp only [List.length_nil, Nat.zero_add, List.nil_append] at h
    simp [replace_keys, h, Except.map]
  · have h := roundtrip_mapeq "$" "_$" hkb (sizeOf (JVal.obj fs)) (JVal.obj fs) le_rfl
      (by rw [cleanV_obj]; exact hc)
    rw [renameV_obj, renameV_obj] at h
    exact h

/-- The payload refuting C7 as stated: a key already named `_$`. -/
def c7Payload : JObj := [("_$", JVal.num 1)]

/-- C7 counterexample: on the payload `[("_$", 1)]` the write escaping is a
no-op, so the stored record still holds `_$`; the read unescaping then turns
it into `$`, and the read-back of the written record does not restore the
original payload's keys. -/
theorem c7_counterexample :
    replace_keys 9 (some c7Payload) "$" "_$" = .ok (some c7Payload) ∧
    replace_keys 9 (some c7Payload) "_$" "$" = .ok (some [("$", JVal.num 1)]) ∧
    hasKeyF c7Payload "_$" = true ∧
    hasKeyF [("$", JVal.num 1)] "_$" = false ∧
    ¬ MapEqV (.obj [("$", JVal.num 1)]) (.obj c7Payload) := by
  refine ⟨rfl, rfl, rfl, rfl, ?_⟩
  intro h
  simp only [MapEqV] at h
  exact absurd (h.1 "_$") (by decide)

/-- A nested clean payload for the C7 witness, with `$` keys at two levels. -/
def c7WitPayload : JObj :=
  [("$", JVal.num 7), ("wind", JVal.obj [("$", JVal.str "kt"), ("speed", JVal.num 12)])]

/-- Witness for the amended C7 at a concrete nested payload. -/
theorem c7_replace_keys_roundtrip_witness :
    cleanF "$" "_$" c7WitPayload = true ∧
    jfuelF "$" c7WitPayload ≤ 20 ∧
    jfuelF "_$" (renameTop "$" "_$" c7WitPayload) ≤ 20 ∧
    (replace_keys 20 (some c7WitPayload) "$" "_$" =
        .ok (some (renameTop "$" "_$" c7WitPayload)) ∧
      replace_keys 20 (some (renameTop "$" "_$" c7WitPayload)) "_$" "$" =
        .ok (some (renameTop "_$" "$" (renameTop "$" "_$" c7WitPayload))) ∧
      MapEqV (.obj (renameTop "_$" "$" (renameTop "$" "_$" c7WitPayload)))
        (.obj c7WitPayload)) :=
  ⟨by decide, by decide, by decide,
    c7_replace_keys_roundtrip c7WitPayload 20 20 (by decide) (by decide) (by decide)⟩

/-!
### counter.py — `DelayedCounter` and the persistence worker queue

`DelayedCounter` accumulates `(icao, request_type)` increments in `_data`
(a dict keyed by `f"\x7bicao\x7d;\x7brequest_type\x7d"`), and `update` drains the map
into the asyncio worker queue as `(icao, request_type, count)` jobs. We model
the dict as an insertion-ordered association list, the queue as a list, and
time as an integer passed in explicitly for `time.time()`.
-/

/-- Python `str.split` with a single-character separator, on the char list. -/
def splitOnChar (c : Char) : List Char → List (List Char)
  | [] => [[]]
  | x :: xs =>
    match splitOnChar c xs with
    | [] => [[x]]
    | y :: ys => if x = c then [] :: y :: ys else (x :: y) :: ys

/-- Python `s.split(sep)` for a one-character `sep`. -/
def pySplit (s : String) (c : Char) : List String :=
  (splitOnChar c s.data).map (fun l => ⟨l⟩)

/-- The mutable fields of `DelayedCounter` (counter.py lines 50–63). -/
structure DelayedCounter where
  _data : List (String × Nat)
  update_at : Int
  interval : Int
  locked : Bool
deriving DecidableEq

/-- A `DelayedCounter` together with the module-level worker `queue`. -/
structure CounterSys where
  ctr : DelayedCounter
  queue : List (String × String × Nat)
deriving DecidableEq

/-- `DelayedCounter.gather_data`: sets `locked`, swaps `_data` for a fresh
empty dict, clears `locked`, and returns the old map. The net sequential
effect is returning the old `_data` with `_data := \x7b\x7d` and `locked = False`. -/
def gather_data (c : DelayedCounter) : List (String × Nat) × DelayedCounter :=
  (c._data, { c with _data := [], locked := false })

/-- `icao, request_type = key.split(";")`: Python unpacking raises
`ValueError` unless the split has exactly two parts. -/
def splitKey (key : String) : Except PyErr (String × String) :=
  match pySplit key ';' with
  | [a, b] => .ok (a, b)
  | _ => .error .valueError

/-- The `for key, count in to_update.items()` loop of `DelayedCounter.update`:
each entry becomes one `queue.put_nowait((icao, request_type, count))`. -/
def enqueueJobs : List (String × Nat) → List (String × String × Nat) →
    Except PyErr (List (String × String × Nat))
  | [], q => .ok q
  | (key, count) :: rest, q =>
    match splitKey key with
    | .error e => .error e
    | .ok (icao, rt) => enqueueJobs rest (q ++ [(icao, rt, count)])

/-- `DelayedCounter.update` (counter.py lines 75–83): gather the map, enqueue
one job per entry, then push `update_at` forward by `interval`. -/
def counter_update (now : Int) (s : CounterSys) : Except PyErr CounterSys :=
  let (to_update, c1) := gather_data s.ctr
  match enqueueJobs to_update s.queue with
  | .error e => .error e
  | .ok q => .ok { ctr := { c1 with update_at := now + c1.interval }, queue := q }

/-- `self._data[key] += 1` under `try/except KeyError: self._data[key] = 1`. -/
def incr : List (String × Nat) → String → List (String × Nat)
  | [], key => [(key, 1)]
  | (k, c) :: rest, key =>
    if k = key then (k, c + 1) :: rest else (k, c) :: incr rest key

/-- `DelayedCounter.add` (counter.py lines 85–97): if `time.time()` has passed
`update_at`, flush via `update` BEFORE recording the increment; then spin
while `locked` (in the sequential event loop a set lock would spin forever,
modelled as a deadlock error) and bump `_data[f"\x7bicao\x7d;\x7btype\x7d"]`. -/
def counter_add (now : Int) (icao rt : String) (s : CounterSys) :
    Except PyErr CounterSys :=
  match (if now > s.ctr.update_at then counter_update now s else .ok s) with
  | .error e => .error e
  | .ok s1 =>
    if s1.ctr.locked then .error .deadlock
    else .ok { s1 with
      ctr := { s1.ctr with _data := incr s1.ctr._data (icao ++ ";" ++ rt) } }

/-- `n` successive `add(icao, request_type)` calls at time `t`. -/
def addN : Nat → Int → String → String → CounterSys → Except PyErr CounterSys
  | 0, _, _, _, s => .ok s
  | n + 1, t, icao, rt, s =>
    match counter_add t icao rt s with
    | .error e => .error e
    | .ok s1 => addN n t icao rt s1

lemma counter_add_no_trigger (t : Int) (icao rt : String) (s : CounterSys)
    (ht : ¬ t > s.ctr.update_at) (hl : s.ctr.locked = false) :
    counter_add t icao rt s =
      .ok { s with
        ctr := { s.ctr with _data := incr s.ctr._data (icao ++ ";" ++ rt) } } := by
  simp [counter_add, ht, hl]

lemma addN_steady (t : Int) (icao rt : String) (n : Nat) :
    ∀ (s : CounterSys) (k : Nat),
      s.ctr._data = [(icao ++ ";" ++ rt, k)] →
      s.ctr.locked = false →
      ¬ t > s.ctr.update_at →
      addN n t icao rt s =
        .ok { s with ctr := { s.ctr with _data := [(icao ++ ";" ++ rt, k + n)] } } := by
  induction n with
  | zero =>
    intro s k hd hl ht
    obtain ⟨⟨d, ua, iv, l⟩, q⟩ := s
    dsimp only at hd
    subst hd
    simp [addN]
  | succ n ih =>
    intro s k hd hl ht
    obtain ⟨⟨d, ua, iv, l⟩, q⟩ := s
    dsimp only at hd hl ht
    subst hd
    subst hl
    have h1 := counter_add_no_trigger t icao rt
      ⟨⟨[(icao ++ ";" ++ rt, k)], ua, iv, false⟩, q⟩ ht rfl
    simp [incr] at h1
    have h2 := ih ⟨⟨[(icao ++ ";" ++ rt, k + 1)], ua, iv, false⟩, q⟩ (k + 1)
      rfl rfl ht
    simp only [addN, h1, h2]
    simp [Nat.add_comm, Nat.add_assoc, Nat.add_left_comm]

lemma addN_from_empty (t : Int) (icao rt : String) (m : Nat) (s : CounterSys)
    (hd : s.ctr._data = []) (hl : s.ctr.locked = false)
    (ht : ¬ t > s.ctr.update_at) :
    addN (m + 1) t icao rt s =
      .ok { s with ctr := { s.ctr with _data := [(icao ++ ";" ++ rt, m + 1)] } } := by
  obtain ⟨⟨d, ua, iv, l⟩, q⟩ := s
  dsimp only at hd hl ht
  subst hd
  subst hl
  have h1 := counter_add_no_trigger t icao rt ⟨⟨[], ua, iv, false⟩, q⟩ ht rfl
  simp only [incr] at h1
  have h2 := addN_steady t icao rt m ⟨⟨[(icao ++ ";" ++ rt, 1)], ua, iv, false⟩, q⟩ 1
    rfl rfl ht
  simp only [addN, h1, h2]
  simp [Nat.add_comm]

/-- C4: starting from an unlocked counter with an empty accumulation map,
`N ≥ 1` calls of `add(icao, request_type)` inside the flush interval keep the
queue untouched and accumulate a single map entry with count `N`; the next
flush (`update`) then enqueues exactly one persistence job `(icao,
request_type, N)` — not `N` separate jobs — and empties the map. -/
theorem c4_delayed_counter_aggregates (icao rt : String) (N : Nat) (t tu : Int)
    (s0 : CounterSys)
    (hd : s0.ctr._data = []) (hl : s0.ctr.locked = false)
    (ht : ¬ t > s0.ctr.update_at)
    (hs : pySplit (icao ++ ";" ++ rt) ';' = [icao, rt])
    (hN : 1 ≤ N) :
    ∃ s1, addN N t icao rt s0 = .ok s1 ∧
      s1.ctr._data = [(icao ++ ";" ++ rt, N)] ∧
      s1.queue = s0.queue ∧
      counter_update tu s1 = .ok
        { ctr := { s0.ctr with _data := [], update_at := tu + s0.ctr.interval,
                               locked := false },
          queue := s0.queue ++ [(icao, rt, N)] } := by
  obtain ⟨m, rfl⟩ : ∃ m, N = m + 1 := ⟨N - 1, by omega⟩
  obtain ⟨⟨d, ua, iv, l⟩, q⟩ := s0
  dsimp only at hd hl ht ⊢
  subst hd
  subst hl
  refine ⟨⟨⟨[(icao ++ ";" ++ rt, m + 1)], ua, iv, false⟩, q⟩, ?_, rfl, rfl, ?_⟩
  · exact addN_from_empty t icao rt m ⟨⟨[], ua, iv, false⟩, q⟩ rfl rfl ht
  · simp [counter_update, gather_data, enqueueJobs, splitKey, hs]

/-- Concrete system for the C4 witness: empty map, next flush due at 100. -/
def c4Sys : CounterSys :=
  { ctr := { _data := [], update_at := 100, interval := 60, locked := false },
    queue := [] }

/-- Witness for C4: three adds of (KJFK, metar) at t = 50, one flush. -/
theorem c4_delayed_counter_aggregates_witness :
    c4Sys.ctr._data = [] ∧ c4Sys.ctr.locked = false ∧
    ¬ (50 : Int) > c4Sys.ctr.update_at ∧
    pySplit ("KJFK" ++ ";" ++ "metar") ';' = ["KJFK", "metar"] ∧
    (1 : Nat) ≤ 3 ∧
    (∃ s1, addN 3 50 "KJFK" "metar" c4Sys = .ok s1 ∧
      s1.ctr._data = [("KJFK" ++ ";" ++ "metar", 3)] ∧
      s1.queue = c4Sys.queue ∧
      counter_update 200 s1 = .ok
        { ctr := { c4Sys.ctr with _data := [],
                                  update_at := 200 + c4Sys.ctr.interval,
                                  locked := false },
          queue := c4Sys.queue ++ [("KJFK", "metar", 3)] }) :=
  ⟨rfl, rfl, by decide, by decide, by decide,
    c4_delayed_counter_aggregates "KJFK" "metar" 3 50 200 c4Sys rfl rfl
      (by decide) (by decide) (by decide)⟩

/-- C10: when an `add` call arrives after `update_at` (the time trigger), the
flush runs FIRST: the worker queue receives exactly the jobs of the OLD
accumulation map, and the triggering increment lands alone in the fresh map,
so the NEXT flush enqueues it as `(icao, request_type, 1)`. -/
theorem c10_flush_before_increment (icao rt : String) (t tu : Int)
    (s : CounterSys) (q1 : List (String × String × Nat))
    (hl : s.ctr.locked = false)
    (ht : t > s.ctr.update_at)
    (hq : enqueueJobs s.ctr._data s.queue = .ok q1)
    (hs : pySplit (icao ++ ";" ++ rt) ';' = [icao, rt]) :
    counter_add t icao rt s = .ok
      { ctr := { s.ctr with _data := [(icao ++ ";" ++ rt, 1)],
                            update_at := t + s.ctr.interval,
                            locked := false },
        queue := q1 } ∧
    counter_update tu
      { ctr := { s.ctr with _data := [(icao ++ ";" ++ rt, 1)],
                            update_at := t + s.ctr.interval,
                            locked := false },
        queue := q1 } = .ok
      { ctr := { s.ctr with _data := [],
                            update_at := tu + s.ctr.interval,
                            locked := false },
        queue := q1 ++ [(icao, rt, 1)] } := by
  obtain ⟨⟨d, ua, iv, l⟩, q⟩ := s
  dsimp only at hl ht hq ⊢
  subst hl
  constructor
  · simp [counter_add, ht, counter_update, gather_data, hq, incr]
  · simp [counter_update, gather_data, enqueueJobs, splitKey, hs]

/-- Concrete system for the C10 witness: a pending EGLL;taf count of 5 and a
flush deadline already passed. -/
def c10Sys : CounterSys :=
  { ctr := { _data := [("EGLL;taf", 5)], update_at := 10, interval := 60,
             locked := false },
    queue := [] }

/-- Witness for C10 at t = 20 > 10: the trigger flushes the old EGLL count,
and KJFK lands in the fresh map with count 1, flushed on the next update. -/
theorem c10_flush_before_increment_witness :
    c10Sys.ctr.locked = false ∧
    (20 : Int) > c10Sys.ctr.update_at ∧
    enqueueJobs c10Sys.ctr._data c10Sys.queue = .ok [("EGLL", "taf", 5)] ∧
    pySplit ("KJFK" ++ ";" ++ "metar") ';' = ["KJFK", "metar"] ∧
    (counter_add 20 "KJFK" "metar" c10Sys = .ok
      { ctr := { c10Sys.ctr with _data := [("KJFK" ++ ";" ++ "metar", 1)],
                                 update_at := 20 + c10Sys.ctr.interval,
                                 locked := false },
        queue := [("EGLL", "taf", 5)] } ∧
    counter_update 200
      { ctr := { c10Sys.ctr with _data := [("KJFK" ++ ";" ++ "metar", 1)],
                                 update_at := 20 + c10Sys.ctr.interval,
                                 locked := false },
        queue := [("EGLL", "taf", 5)] } = .ok
      { ctr := { c10Sys.ctr with _data := [],
                                 update_at := 200 + c10Sys.ctr.interval,
                                 locked := false },
        queue := [("EGLL", "taf", 5)] ++ [("KJFK", "metar", 1)] }) :=
  ⟨rfl, by decide, rfl, by decide,
    c10_flush_before_increment "KJFK" "metar" 20 200 c10Sys [("EGLL", "taf", 5)]
      rfl (by decide) rfl (by decide)⟩

/-!
### C5 — shutdown drain (`clean_queue` + `worker`)

`clean_queue` flushes the counter, then busy-waits on `queue.empty()` and
cancels the workers. `worker` removes a job from the queue with
`queue.get()` BEFORE awaiting the database write and only calls
`task_done()` after the write. So the queue can be empty while a job is
still in flight inside a worker; `clean_queue` then cancels that worker and
the increment is lost. We model the drain as a transition system: `dequeue`
is the worker's `queue.get()`, `persist` is the completed database write,
and `cancel` is `clean_queue`'s cancellation, enabled exactly when the
queue is empty (the only condition the code checks) and stopping all
workers. -/

/-- State of the shutdown drain: pending queue, jobs dequeued by a worker but
not yet written, jobs written to the database, and whether the workers have
been cancelled. -/
structure DrainState where
  queue : List (String × String × Nat)
  inflight : List (String × String × Nat)
  persisted : List (String × String × Nat)
  cancelled : Bool
deriving DecidableEq

/-- Drain transitions of `clean_queue`/`worker`. `cancel` fires as soon as
`queue.empty()` holds, regardless of in-flight jobs — that is the code's
only guard. -/
inductive DStep : DrainState → DrainState → Prop where
  | dequeue (j : String × String × Nat) (q i p : List (String × String × Nat)) :
      DStep ⟨j :: q, i, p, false⟩ ⟨q, i ++ [j], p, false⟩
  | persist (j : String × String × Nat)
      (q i1 i2 p : List (String × String × Nat)) :
      DStep ⟨q, i1 ++ j :: i2, p, false⟩ ⟨q, i1 ++ i2, p ++ [j], false⟩
  | cancel (i p : List (String × String × Nat)) :
      DStep ⟨[], i, p, false⟩ ⟨[], i, p, true⟩

lemma dstep_src_not_cancelled {a b : DrainState} (h : DStep a b) :
    a.cancelled = false := by
  cases h <;> rfl

/-- C5 is wrong of the code: one recorded increment is flushed by
`clean_queue` into the queue as (KJFK, metar, 1); a worker dequeues it; the
queue is now empty, so `clean_queue`'s `while not queue.empty()` guard
passes and it cancels the workers while the job is still in flight. The
resulting state is terminal with nothing persisted, losing the increment —
the code polls `queue.empty()` where only `queue.join()` (all jobs
`task_done`) would justify cancelling. -/
theorem c5_shutdown_cancels_inflight :
    counter_update 100
      { ctr := { _data := [("KJFK;metar", 1)], update_at := 0, interval := 60,
                 locked := false },
        queue := [] } = .ok
      { ctr := { _data := [], update_at := 160, interval := 60,
                 locked := false },
        queue := [("KJFK", "metar", 1)] } ∧
    DStep ⟨[("KJFK", "metar", 1)], [], [], false⟩
      ⟨[], [("KJFK", "metar", 1)], [], false⟩ ∧
    DStep ⟨[], [("KJFK", "metar", 1)], [], false⟩
      ⟨[], [("KJFK", "metar", 1)], [], true⟩ ∧
    (DrainState.mk [] [("KJFK", "metar", 1)] [] false).inflight ≠ [] ∧
    (∀ s', ¬ DStep ⟨[], [("KJFK", "metar", 1)], [], true⟩ s') ∧
    (DrainState.mk [] [("KJFK", "metar", 1)] [] true).persisted = [] := by
  refine ⟨?_, DStep.dequeue ("KJFK", "metar", 1) [] [] [],
    DStep.cancel [("KJFK", "metar", 1)] [], by decide, ?_, rfl⟩
  · simp [counter_update, gather_data, enqueueJobs, splitKey, pySplit,
      splitOnChar]
  · intro s' h
    exact absurd (dstep_src_not_cancelled h) (by decide)

end AvwxApi
